import Mathlib

/-
  Verification development for a bidirectional S3 folder-sync client.

  The source program keeps two in-memory JavaScript Maps
  (localState, s3State : Map<string, FileState>) describing the files known
  on each side, and drives four side-effecting port operations
  (uploadToS3, downloadFromS3, deleteFromS3, deleteLocal) from a four-phase
  initial reconciliation (performInitialSync), a periodic remote-change scan
  (syncS3ToLocal), and a periodic local-to-remote pass (syncLocalToS3).

  The embedding below models:
  - a JS Map as an insertion-ordered association list (set updates in place,
    delete removes, iteration follows list order);
  - Date timestamps as naturals, content hashes as strings (a file's content
    is identified by its md5, so calculateMD5 of a file returns the stored
    content string);
  - the external world (local disk, S3 object store) as explicit key-value
    lists inside a World record, plus an Env of success/failure switches for
    every fallible primitive (fs.readFileSync, s3Client.send for put/get/
    delete, fs.unlinkSync, calculateMD5);
  - each executed port operation is appended to an operation log (World.ops)
    at the moment the corresponding function is invoked;
  - exception propagation with Except World World: uploadToS3 performs
    fs.readFileSync OUTSIDE its try/catch, so a read failure escapes to the
    caller; every other failure is caught inside the operation.
-/

namespace S3Sync

/-- Lookup in a JS-Map-style association list: first entry with the key. -/
def mget {α : Type} : List (String × α) → String → Option α
  | [], _ => none
  | (k', v) :: rest, k => if k' = k then some v else mget rest k

/-- JS Map.set semantics: update the first entry with the key in place,
    otherwise append the new entry at the end (insertion order kept). -/
def mset {α : Type} : List (String × α) → String → α → List (String × α)
  | [], k, v => [(k, v)]
  | (k', v') :: rest, k, v =>
      if k' = k then (k', v) :: rest else (k', v') :: mset rest k v

/-- JS Map.delete semantics: remove the entries with the key. -/
def mdel {α : Type} : List (String × α) → String → List (String × α)
  | [], _ => []
  | (k', v) :: rest, k => if k' = k then mdel rest k else (k', v) :: mdel rest k

/-- The keys of an association list, in iteration order. -/
def mapKeys {α : Type} (m : List (String × α)) : List String := m.map Prod.fst

/-- The JS Map invariant: no key occurs twice. -/
def keysNodup {α : Type} (m : List (String × α)) : Prop := (mapKeys m).Nodup

instance {α : Type} (m : List (String × α)) : Decidable (keysNodup m) :=
  inferInstanceAs (Decidable (mapKeys m).Nodup)

/-- The interface FileState of the source: one side's record for a synced
    file, keyed by root-relative path, with its content md5 and last-modified
    timestamp (Date modelled as Nat). -/
structure FileState where
  path : String
  md5 : String
  lastModified : Nat
deriving DecidableEq

/-- A port operation executed by the engine: an invocation of uploadToS3,
    downloadFromS3, deleteFromS3 or deleteLocal. -/
inductive Op where
  | upload (key : String)
  | download (key : String)
  | deleteRemote (key : String)
  | deleteLocal (key : String)
deriving DecidableEq

/-- All mutable state the program touches: the two StateStores (localState,
    s3State, exactly the two module-level Maps of the source), the contents
    of the local folder and of the bucket (a file or object is identified by
    the md5 of its bytes, so the stored value IS what calculateMD5 returns),
    and the log of port operations executed so far. -/
structure World where
  localState : List (String × FileState)
  s3State : List (String × FileState)
  localDisk : List (String × String)
  s3Objects : List (String × String)
  ops : List Op
deriving DecidableEq

/-- Environment of one reconciliation pass: the dry-run flag from config and
    a success/failure switch for every fallible external primitive, per key:
    fs.readFileSync (in uploadToS3), the s3Client.send of PutObjectCommand,
    GetObjectCommand (together with mkdir/writeFileSync of the result) and
    DeleteObjectCommand, fs.unlinkSync, and the two calculateMD5 calls made
    inside uploadToS3 and downloadFromS3. env.now is what new Date() yields. -/
structure Env where
  isDryRun : Bool
  readOk : String → Bool
  putOk : String → Bool
  getOk : String → Bool
  delRemoteOk : String → Bool
  delLocalOk : String → Bool
  md5UploadOk : String → Bool
  md5DownloadOk : String → Bool
  now : Nat

/-- uploadToS3(filePath) of the source, with key = relative(root, filePath).
    fs.readFileSync runs BEFORE the try block, so its failure (file missing
    or read error) is an uncaught exception: Except.error. Inside the try:
    send(PutObjectCommand) uploads the bytes; on success calculateMD5 is
    recomputed and s3State.set(key, ...) records the fresh fingerprint; any
    error inside the try is caught and leaves the StateStores untouched. -/
def uploadToS3 (env : Env) (w : World) (key : String) : Except World World :=
  let w1 : World := { w with ops := w.ops ++ [Op.upload key] }
  match mget w1.localDisk key with
  | none => Except.error w1
  | some content =>
      if env.readOk key then
        if env.putOk key then
          let w2 : World := { w1 with s3Objects := mset w1.s3Objects key content }
          if env.md5UploadOk key then
            Except.ok { w2 with
              s3State := mset w2.s3State key ⟨key, content, env.now⟩ }
          else
            Except.ok w2
        else
          Except.ok w1
      else
        Except.error w1

/-- downloadFromS3(key) of the source. The whole body is inside the try, so
    it never throws: a failed GetObject (or a missing object) is caught and
    changes nothing; on success the bytes are written to the local folder
    and, if the subsequent calculateMD5 succeeds, localState.set(key, ...)
    records the fingerprint of the downloaded content. -/
def downloadFromS3 (env : Env) (w : World) (key : String) : World :=
  let w1 : World := { w with ops := w.ops ++ [Op.download key] }
  match mget w1.s3Objects key with
  | none => w1
  | some content =>
      if env.getOk key then
        let w2 : World := { w1 with localDisk := mset w1.localDisk key content }
        if env.md5DownloadOk key then
          { w2 with localState := mset w2.localState key ⟨key, content, env.now⟩ }
        else
          w2
      else
        w1

/-- deleteFromS3(key) of the source: send(DeleteObjectCommand) inside a try;
    on success the object disappears and s3State.delete(key); a failure is
    caught and changes nothing. -/
def deleteFromS3 (env : Env) (w : World) (key : String) : World :=
  let w1 : World := { w with ops := w.ops ++ [Op.deleteRemote key] }
  if env.delRemoteOk key then
    { w1 with s3Objects := mdel w1.s3Objects key, s3State := mdel w1.s3State key }
  else
    w1

/-- deleteLocal(key) of the source: fs.unlinkSync inside a try (it throws if
    the file is absent or the unlink fails, and the catch swallows it); on
    success the file disappears and localState.delete(key). -/
def deleteLocal (env : Env) (w : World) (key : String) : World :=
  let w1 : World := { w with ops := w.ops ++ [Op.deleteLocal key] }
  match mget w1.localDisk key with
  | none => w1
  | some _ =>
      if env.delLocalOk key then
        { w1 with localDisk := mdel w1.localDisk key, localState := mdel w1.localState key }
      else
        w1

/-- The shared download/upload trigger of the source:
    (!other || mine.md5 !== other.md5). -/
def needsSync (entry : Option FileState) (other : FileState) : Bool :=
  match entry with
  | none => true
  | some f => f.md5 != other.md5

/-- Phase 1 of performInitialSync: for every (key, s3File) of s3State, if the
    local record is absent or its md5 differs, download (or only log the
    decision in dry-run). The loop iterates the snapshot of s3State taken at
    entry; the body mutates only localState/localDisk, so this matches the
    live JS Map iteration. -/
def initialDownloadPhase (env : Env) : List (String × FileState) → World → World
  | [], w => w
  | (key, s3File) :: rest, w =>
      let w' :=
        if needsSync (mget w.localState key) s3File then
          if env.isDryRun then w else downloadFromS3 env w key
        else
          w
      initialDownloadPhase env rest w'

/-- Phase 2 of performInitialSync: for every (key, localFile) of localState,
    if the remote record is absent or its md5 differs, upload (or only log in
    dry-run). uploadToS3 can throw (readFileSync), and performInitialSync has
    no try/catch, so the exception aborts the remaining iterations. -/
def initialUploadPhase (env : Env) : List (String × FileState) → World → Except World World
  | [], w => Except.ok w
  | (key, localFile) :: rest, w =>
      if needsSync (mget w.s3State key) localFile then
        if env.isDryRun then
          initialUploadPhase env rest w
        else
          match uploadToS3 env w key with
          | Except.ok w' => initialUploadPhase env rest w'
          | Except.error w' => Except.error w'
      else
        initialUploadPhase env rest w

/-- Phase 3 of performInitialSync: for every key of s3State not present in
    localState, delete the object remotely (or only log in dry-run). -/
def remoteDeletePhase (env : Env) : List (String × FileState) → World → World
  | [], w => w
  | (key, _) :: rest, w =>
      let w' :=
        if (mget w.localState key).isSome then
          w
        else
          if env.isDryRun then w else deleteFromS3 env w key
      remoteDeletePhase env rest w'

/-- Phase 4 of performInitialSync: for every key of localState not present in
    s3State, delete the local file (or only log in dry-run). -/
def localDeletePhase (env : Env) : List (String × FileState) → World → World
  | [], w => w
  | (key, _) :: rest, w =>
      let w' :=
        if (mget w.s3State key).isSome then
          w
        else
          if env.isDryRun then w else deleteLocal env w key
      localDeletePhase env rest w'

/-- performInitialSync of the source: downloads, then uploads, then remote
    deletes, then local deletes, each phase iterating the state as it stands
    when the phase begins. An uncaught exception from uploadToS3 propagates
    (Except.error) and skips every remaining phase. -/
def performInitialSync (env : Env) (w : World) : Except World World :=
  let w1 := initialDownloadPhase env w.s3State w
  match initialUploadPhase env w1.localState w1 with
  | Except.error w2 => Except.error w2
  | Except.ok w2 =>
      let w3 := remoteDeletePhase env w2.s3State w2
      Except.ok (localDeletePhase env w3.localState w3)

/-- One entry of a ListObjectsV2 response: key, ETag (quotes stripped) and
    LastModified. -/
structure RemoteObject where
  key : String
  etag : String
  lastModified : Nat
deriving DecidableEq

/-- The loop body of syncS3ToLocal for one listed object: download when
    there is no local record or the local record's lastModified is strictly
    older than the listed LastModified. No dry-run check and no fingerprint
    comparison appears here in the source. -/
def syncStep (env : Env) (w : World) (obj : RemoteObject) : World :=
  match mget w.localState obj.key with
  | none => downloadFromS3 env w obj.key
  | some localFile =>
      if localFile.lastModified < obj.lastModified then
        downloadFromS3 env w obj.key
      else
        w

/-- The loop of syncS3ToLocal over the listing entries, in order. -/
def syncS3ToLocalLoop (env : Env) : List RemoteObject → World → World
  | [], w => w
  | obj :: rest, w => syncS3ToLocalLoop env rest (syncStep env w obj)

/-- syncS3ToLocal of the source, given the (successfully obtained) remote
    listing. A listing failure would be caught and skip the whole pass, so
    only the successful-listing behaviour is modelled. -/
def syncS3ToLocal (env : Env) (listing : List RemoteObject) (w : World) : World :=
  syncS3ToLocalLoop env listing w

/-- The upload loop of syncLocalToS3: same trigger as phase 2 of the initial
    sync but WITHOUT any dry-run check (the source consults config.isDryRun
    only inside performInitialSync). -/
def uploadSyncPhase (env : Env) : List (String × FileState) → World → Except World World
  | [], w => Except.ok w
  | (key, localFile) :: rest, w =>
      if needsSync (mget w.s3State key) localFile then
        match uploadToS3 env w key with
        | Except.ok w' => uploadSyncPhase env rest w'
        | Except.error w' => Except.error w'
      else
        uploadSyncPhase env rest w

/-- The delete loop of syncLocalToS3: delete remotely every key of s3State
    that is absent from localState, again without any dry-run check. -/
def deleteSyncPhase (env : Env) : List (String × FileState) → World → World
  | [], w => w
  | (key, _) :: rest, w =>
      let w' :=
        if (mget w.localState key).isSome then w else deleteFromS3 env w key
      deleteSyncPhase env rest w'

/-- syncLocalToS3 of the source: uploads, then remote deletes. -/
def syncLocalToS3 (env : Env) (w : World) : Except World World :=
  match uploadSyncPhase env w.localState w with
  | Except.error w' => Except.error w'
  | Except.ok w' => Except.ok (deleteSyncPhase env w'.s3State w')

/-- The world in which an Except-returning pass left the program, whether it
    returned normally or threw. -/
def outcome : Except World World → World
  | Except.ok w => w
  | Except.error w => w

/-- The localState records are accurate: every recorded entry's md5 matches
    the md5 of the file currently in the local folder (as after
    initializeLocalState, which hashes every file it records). -/
def lsAccurate (w : World) : Prop :=
  ∀ e ∈ w.localState, mget w.localDisk e.1 = some e.2.md5

/-- The s3State records are accurate: every recorded entry's md5 matches the
    md5 of the object currently in the bucket (the ETag-equals-content-md5
    assumption of initializeS3State). -/
def rsAccurate (w : World) : Prop :=
  ∀ e ∈ w.s3State, mget w.s3Objects e.1 = some e.2.md5

instance (w : World) : Decidable (lsAccurate w) :=
  inferInstanceAs (Decidable (∀ e ∈ w.localState, mget w.localDisk e.1 = some e.2.md5))

instance (w : World) : Decidable (rsAccurate w) :=
  inferInstanceAs (Decidable (∀ e ∈ w.s3State, mget w.s3Objects e.1 = some e.2.md5))

/-- Dry-run is off and every external primitive succeeds for every key. -/
def AllOk (env : Env) : Prop :=
  env.isDryRun = false ∧
  ∀ k, env.readOk k = true ∧ env.putOk k = true ∧ env.getOk k = true ∧
    env.delRemoteOk k = true ∧ env.delLocalOk k = true ∧
    env.md5UploadOk k = true ∧ env.md5DownloadOk k = true

/-- The two StateStores agree: every path is recorded on both sides with the
    same fingerprint, or on neither side. -/
def Synced (w : World) : Prop :=
  ∀ k, match mget w.localState k, mget w.s3State k with
    | none, none => True
    | some a, some b => a.md5 = b.md5
    | _, _ => False

/-- A reconciliation environment in which every primitive succeeds, dry-run
    off, and new Date() returns 10. -/
def envAllOk : Env :=
  { isDryRun := false, readOk := fun _ => true, putOk := fun _ => true,
    getOk := fun _ => true, delRemoteOk := fun _ => true,
    delLocalOk := fun _ => true, md5UploadOk := fun _ => true,
    md5DownloadOk := fun _ => true, now := 10 }

/-- envAllOk with dry-run turned on. -/
def envDryAllOk : Env := { envAllOk with isDryRun := true }

/-- envAllOk except that fs.readFileSync fails for the file of key a. -/
def envReadFailA : Env := { envAllOk with readOk := fun k => !(k == "a") }

/-- envAllOk except that every PutObject send fails. -/
def envPutFail : Env := { envAllOk with putOk := fun _ => false }

/-- One local-only file a with content hash h1, accurately recorded. -/
def wLocalOnly : World :=
  { localState := [("a", ⟨"a", "h1", 0⟩)], s3State := [],
    localDisk := [("a", "h1")], s3Objects := [], ops := [] }

/-- A conflict world: path p on both sides with differing fingerprints
    (h1 locally, h2 remotely), both records accurate. -/
def wConflict : World :=
  { localState := [("p", ⟨"p", "h1", 0⟩)], s3State := [("p", ⟨"p", "h2", 0⟩)],
    localDisk := [("p", "h1")], s3Objects := [("p", "h2")], ops := [] }

/-- Two local-only files a and b, accurately recorded, empty remote. -/
def wTwoLocal : World :=
  { localState := [("a", ⟨"a", "ha", 0⟩), ("b", ⟨"b", "hb", 0⟩)], s3State := [],
    localDisk := [("a", "ha"), ("b", "hb")], s3Objects := [], ops := [] }

/-- Path p on both sides with the SAME fingerprint h and local lastModified 3. -/
def wSamePath : World :=
  { localState := [("p", ⟨"p", "h", 3⟩)], s3State := [("p", ⟨"p", "h", 3⟩)],
    localDisk := [("p", "h")], s3Objects := [("p", "h")], ops := [] }

/-- Disjoint accurate stores: a exists only locally, b only remotely. -/
def wDisjoint : World :=
  { localState := [("a", ⟨"a", "ha", 0⟩)], s3State := [("b", ⟨"b", "hb", 1⟩)],
    localDisk := [("a", "ha")], s3Objects := [("b", "hb")], ops := [] }

/-- One accurately recorded file per side: a locally, b remotely. -/
def wOneEach : World :=
  { localState := [("a", ⟨"a", "h1", 0⟩)], s3State := [("b", ⟨"b", "h2", 1⟩)],
    localDisk := [("a", "h1")], s3Objects := [("b", "h2")], ops := [] }

/-- Local file a with lastModified 3, and remote listing entries for a
    (LastModified 2, not newer) and b (absent locally). -/
def wListed : World :=
  { localState := [("a", ⟨"a", "x", 3⟩)], s3State := [("a", ⟨"a", "x", 3⟩)],
    localDisk := [("a", "x")], s3Objects := [("a", "x"), ("b", "y")], ops := [] }

/-- The remote listing used with wListed. -/
def listedObjects : List RemoteObject := [⟨"a", "x", 2⟩, ⟨"b", "y", 1⟩]

end S3Sync

deriving instance DecidableEq for Except

namespace S3Sync

theorem mget_mset_self {α : Type} (m : List (String × α)) (k : String) (v : α) :
    mget (mset m k v) k = some v := by
  induction m with
  | nil => simp [mget, mset]
  | cons e rest ih =>
      obtain ⟨k', v'⟩ := e
      by_cases h : k' = k
      · simp [mget, mset, h]
      · simp [mget, mset, h, ih]

theorem mget_mset_ne {α : Type} (m : List (String × α)) (k k' : String) (v : α)
    (h : k' ≠ k) : mget (mset m k v) k' = mget m k' := by
  have h' : ¬k = k' := fun hh => h hh.symm
  induction m with
  | nil => simp [mget, mset, h']
  | cons e rest ih =>
      obtain ⟨k₀, v₀⟩ := e
      by_cases h0 : k₀ = k
      · subst h0
        simp [mget, mset, h']
      · by_cases h1 : k₀ = k'
        · simp [mget, mset, h0, h1, h]
        · simp [mget, mset, h0, h1, ih]

theorem mget_mdel_self {α : Type} (m : List (String × α)) (k : String) :
    mget (mdel m k) k = none := by
  induction m with
  | nil => simp [mget, mdel]
  | cons e rest ih =>
      obtain ⟨k', v'⟩ := e
      by_cases h : k' = k
      · simp [mdel, h, ih]
      · simp [mget, mdel, h, ih]

theorem mget_mdel_ne {α : Type} (m : List (String × α)) (k k' : String)
    (h : k' ≠ k) : mget (mdel m k) k' = mget m k' := by
  have h' : ¬k = k' := fun hh => h hh.symm
  induction m with
  | nil => simp [mdel]
  | cons e rest ih =>
      obtain ⟨k₀, v₀⟩ := e
      by_cases h0 : k₀ = k
      · subst h0
        simp [mget, mdel, h', ih]
      · by_cases h1 : k₀ = k'
        · simp [mget, mdel, h0, h1, h, ih]
        · simp [mget, mdel, h0, h1, ih]

theorem mem_of_mget {α : Type} {m : List (String × α)} {k : String} {v : α}
    (h : mget m k = some v) : (k, v) ∈ m := by
  induction m with
  | nil => simp [mget] at h
  | cons e rest ih =>
      obtain ⟨k₀, v₀⟩ := e
      by_cases h0 : k₀ = k
      · subst h0
        simp [mget] at h
        simp [h]
      · simp [mget, h0] at h
        exact List.mem_cons_of_mem _ (ih h)

theorem mget_isSome_iff {α : Type} (m : List (String × α)) (k : String) :
    (mget m k).isSome ↔ k ∈ mapKeys m := by
  induction m with
  | nil => simp [mget, mapKeys]
  | cons e rest ih =>
      obtain ⟨k₀, v₀⟩ := e
      by_cases h0 : k₀ = k
      · subst h0
        simp [mget, mapKeys]
      · simp [mget, mapKeys, h0, Ne.symm h0] at ih ⊢
        exact ih

theorem mget_eq_none_iff {α : Type} (m : List (String × α)) (k : String) :
    mget m k = none ↔ k ∉ mapKeys m := by
  rw [← mget_isSome_iff]
  cases mget m k <;> simp

theorem mget_of_mem_nodup {α : Type} {m : List (String × α)} {k : String} {v : α}
    (hnd : keysNodup m) (h : (k, v) ∈ m) : mget m k = some v := by
  induction m with
  | nil => simp at h
  | cons e rest ih =>
      obtain ⟨k₀, v₀⟩ := e
      simp [keysNodup, mapKeys] at hnd
      rcases List.mem_cons.mp h with h1 | h1
      · obtain ⟨hk, hv⟩ := Prod.mk.injEq .. ▸ h1
        simp [mget, hk.symm, hv]
      · have hk0 : k₀ ≠ k := by
          intro hkk
          subst hkk
          exact hnd.1 v (by simpa using h1)
        simp [mget, hk0]
        exact ih (by simpa [keysNodup, mapKeys] using hnd.2) h1

theorem mget_isSome_of_mem {α : Type} {m : List (String × α)} {k : String} {v : α}
    (h : (k, v) ∈ m) : (mget m k).isSome := by
  rw [mget_isSome_iff]
  exact List.mem_map.mpr ⟨(k, v), h, rfl⟩

theorem mapKeys_mset {α : Type} (m : List (String × α)) (k : String) (v : α) :
    mapKeys (mset m k v) = if k ∈ mapKeys m then mapKeys m else mapKeys m ++ [k] := by
  induction m with
  | nil => simp [mset, mapKeys]
  | cons e rest ih =>
      obtain ⟨k₀, v₀⟩ := e
      by_cases h0 : k₀ = k
      · subst h0
        simp [mset, mapKeys]
      · have h0' : ¬k = k₀ := fun hh => h0 hh.symm
        simp [mset, mapKeys, h0] at ih ⊢
        rw [ih]
        by_cases hm : k ∈ List.map Prod.fst rest <;> simp [hm, h0']

theorem keysNodup_mset {α : Type} {m : List (String × α)} (k : String) (v : α)
    (hnd : keysNodup m) : keysNodup (mset m k v) := by
  unfold keysNodup
  rw [mapKeys_mset]
  by_cases hm : k ∈ mapKeys m
  · simpa [hm] using hnd
  · simp [hm]
    exact List.Nodup.append hnd (List.nodup_singleton k)
      (by simpa [List.disjoint_singleton] using hm)

theorem mdel_sublist {α : Type} (m : List (String × α)) (k : String) :
    List.Sublist (mdel m k) m := by
  induction m with
  | nil => simp [mdel]
  | cons e rest ih =>
      obtain ⟨k₀, v₀⟩ := e
      by_cases h0 : k₀ = k
      · simpa [mdel, h0] using List.Sublist.cons (k₀, v₀) ih
      · simpa [mdel, h0] using List.Sublist.cons₂ (k₀, v₀) ih

theorem keysNodup_mdel {α : Type} {m : List (String × α)} (k : String)
    (hnd : keysNodup m) : keysNodup (mdel m k) := by
  exact List.Nodup.sublist (List.Sublist.map Prod.fst (mdel_sublist m k)) hnd

theorem mget_isSome_mset {α : Type} (m : List (String × α)) (k k' : String) (v : α)
    (h : (mget m k').isSome) : (mget (mset m k v) k').isSome := by
  by_cases hk : k' = k
  · subst hk
    simp [mget_mset_self]
  · rwa [mget_mset_ne _ _ _ _ hk]

theorem upload_outcome_ops (env : Env) (w : World) (k : String) :
    (outcome (uploadToS3 env w k)).ops = w.ops ++ [Op.upload k] := by
  unfold uploadToS3 outcome
  cases h : mget w.localDisk k
  · simp [h]
  · by_cases hr : env.readOk k <;> by_cases hp : env.putOk k <;>
      by_cases hm : env.md5UploadOk k <;> simp [h, hr, hp, hm]

theorem upload_outcome_localState (env : Env) (w : World) (k : String) :
    (outcome (uploadToS3 env w k)).localState = w.localState := by
  unfold uploadToS3 outcome
  cases h : mget w.localDisk k
  · simp [h]
  · by_cases hr : env.readOk k <;> by_cases hp : env.putOk k <;>
      by_cases hm : env.md5UploadOk k <;> simp [h, hr, hp, hm]

theorem upload_outcome_localDisk (env : Env) (w : World) (k : String) :
    (outcome (uploadToS3 env w k)).localDisk = w.localDisk := by
  unfold uploadToS3 outcome
  cases h : mget w.localDisk k
  · simp [h]
  · by_cases hr : env.readOk k <;> by_cases hp : env.putOk k <;>
      by_cases hm : env.md5UploadOk k <;> simp [h, hr, hp, hm]

theorem upload_s3State_cases (env : Env) (w : World) (k : String) :
    (outcome (uploadToS3 env w k)).s3State = w.s3State ∨
      ∃ c, mget w.localDisk k = some c ∧
        (outcome (uploadToS3 env w k)).s3State = mset w.s3State k ⟨k, c, env.now⟩ := by
  unfold uploadToS3 outcome
  cases h : mget w.localDisk k
  · simp [h]
  · by_cases hr : env.readOk k <;> by_cases hp : env.putOk k <;>
      by_cases hm : env.md5UploadOk k <;> simp [h, hr, hp, hm]

theorem upload_ok_of (env : Env) (w : World) (k : String)
    (hr : env.readOk k = true) (hd : (mget w.localDisk k).isSome) :
    uploadToS3 env w k = Except.ok (outcome (uploadToS3 env w k)) := by
  unfold uploadToS3 outcome
  cases h : mget w.localDisk k
  · rw [h] at hd
    simp at hd
  · by_cases hp : env.putOk k <;> by_cases hm : env.md5UploadOk k <;>
      simp [h, hr, hp, hm]

theorem upload_success (env : Env) (w : World) (k : String) (c : String)
    (hd : mget w.localDisk k = some c) (hr : env.readOk k = true)
    (hp : env.putOk k = true) (hm : env.md5UploadOk k = true) :
    uploadToS3 env w k = Except.ok { w with
      ops := w.ops ++ [Op.upload k],
      s3Objects := mset w.s3Objects k c,
      s3State := mset w.s3State k ⟨k, c, env.now⟩ } := by
  unfold uploadToS3
  simp [hd, hr, hp, hm]

theorem upload_fail_s3State (env : Env) (w : World) (k : String)
    (hfail : ¬((mget w.localDisk k).isSome ∧ env.readOk k = true ∧
      env.putOk k = true ∧ env.md5UploadOk k = true)) :
    (outcome (uploadToS3 env w k)).s3State = w.s3State := by
  unfold uploadToS3 outcome
  cases h : mget w.localDisk k
  · simp [h]
  · rw [h] at hfail
    by_cases hr : env.readOk k <;> by_cases hp : env.putOk k <;>
      by_cases hm : env.md5UploadOk k <;> simp [h, hr, hp, hm] at hfail ⊢

theorem download_ops (env : Env) (w : World) (k : String) :
    (downloadFromS3 env w k).ops = w.ops ++ [Op.download k] := by
  unfold downloadFromS3
  cases h : mget w.s3Objects k
  · simp [h]
  · by_cases hg : env.getOk k <;> by_cases hm : env.md5DownloadOk k <;> simp [h, hg, hm]

theorem download_s3State (env : Env) (w : World) (k : String) :
    (downloadFromS3 env w k).s3State = w.s3State := by
  unfold downloadFromS3
  cases h : mget w.s3Objects k
  · simp [h]
  · by_cases hg : env.getOk k <;> by_cases hm : env.md5DownloadOk k <;> simp [h, hg, hm]

theorem download_s3Objects (env : Env) (w : World) (k : String) :
    (downloadFromS3 env w k).s3Objects = w.s3Objects := by
  unfold downloadFromS3
  cases h : mget w.s3Objects k
  · simp [h]
  · by_cases hg : env.getOk k <;> by_cases hm : env.md5DownloadOk k <;> simp [h, hg, hm]

theorem download_localState_cases (env : Env) (w : World) (k : String) :
    (downloadFromS3 env w k).localState = w.localState ∨
      ∃ c, mget w.s3Objects k = some c ∧
        (downloadFromS3 env w k).localState = mset w.localState k ⟨k, c, env.now⟩ := by
  unfold downloadFromS3
  cases h : mget w.s3Objects k
  · simp [h]
  · by_cases hg : env.getOk k <;> by_cases hm : env.md5DownloadOk k <;> simp [h, hg, hm]

theorem download_localDisk_cases (env : Env) (w : World) (k : String) :
    (downloadFromS3 env w k).localDisk = w.localDisk ∨
      ∃ c, mget w.s3Objects k = some c ∧
        (downloadFromS3 env w k).localDisk = mset w.localDisk k c := by
  unfold downloadFromS3
  cases h : mget w.s3Objects k
  · simp [h]
  · by_cases hg : env.getOk k <;> by_cases hm : env.md5DownloadOk k <;> simp [h, hg, hm]

theorem download_success (env : Env) (w : World) (k : String) (c : String)
    (hd : mget w.s3Objects k = some c) (hg : env.getOk k = true)
    (hm : env.md5DownloadOk k = true) :
    downloadFromS3 env w k = { w with
      ops := w.ops ++ [Op.download k],
      localDisk := mset w.localDisk k c,
      localState := mset w.localState k ⟨k, c, env.now⟩ } := by
  unfold downloadFromS3
  simp [hd, hg, hm]

theorem download_fail_localState (env : Env) (w : World) (k : String)
    (hfail : ¬(env.getOk k = true ∧ (mget w.s3Objects k).isSome ∧
      env.md5DownloadOk k = true)) :
    (downloadFromS3 env w k).localState = w.localState := by
  unfold downloadFromS3
  cases h : mget w.s3Objects k
  · simp [h]
  · rw [h] at hfail
    by_cases hg : env.getOk k <;> by_cases hm : env.md5DownloadOk k <;>
      simp [h, hg, hm] at hfail ⊢

theorem download_localState_ne (env : Env) (w : World) (k k' : String)
    (h : k' ≠ k) :
    mget (downloadFromS3 env w k).localState k' = mget w.localState k' := by
  rcases download_localState_cases env w k with hc | ⟨c, _, hc⟩
  · rw [hc]
  · rw [hc, mget_mset_ne _ _ _ _ h]

theorem download_localState_isSome_mono (env : Env) (w : World) (k k' : String)
    (h : (mget w.localState k').isSome) :
    (mget (downloadFromS3 env w k).localState k').isSome := by
  rcases download_localState_cases env w k with hc | ⟨c, _, hc⟩
  · rwa [hc]
  · rw [hc]
    exact mget_isSome_mset _ _ _ _ h

theorem download_localDisk_isSome_mono (env : Env) (w : World) (k k' : String)
    (h : (mget w.localDisk k').isSome) :
    (mget (downloadFromS3 env w k).localDisk k').isSome := by
  rcases download_localDisk_cases env w k with hc | ⟨c, _, hc⟩
  · rwa [hc]
  · rw [hc]
    exact mget_isSome_mset _ _ _ _ h

theorem deleteFromS3_ops (env : Env) (w : World) (k : String) :
    (deleteFromS3 env w k).ops = w.ops ++ [Op.deleteRemote k] := by
  unfold deleteFromS3
  by_cases hd : env.delRemoteOk k <;> simp [hd]

theorem deleteFromS3_localState (env : Env) (w : World) (k : String) :
    (deleteFromS3 env w k).localState = w.localState := by
  unfold deleteFromS3
  by_cases hd : env.delRemoteOk k <;> simp [hd]

theorem deleteFromS3_localDisk (env : Env) (w : World) (k : String) :
    (deleteFromS3 env w k).localDisk = w.localDisk := by
  unfold deleteFromS3
  by_cases hd : env.delRemoteOk k <;> simp [hd]

theorem deleteFromS3_success (env : Env) (w : World) (k : String)
    (hd : env.delRemoteOk k = true) :
    deleteFromS3 env w k = { w with
      ops := w.ops ++ [Op.deleteRemote k],
      s3Objects := mdel w.s3Objects k,
      s3State := mdel w.s3State k } := by
  unfold deleteFromS3
  simp [hd]

theorem deleteFromS3_fail (env : Env) (w : World) (k : String)
    (hd : env.delRemoteOk k = false) :
    deleteFromS3 env w k = { w with ops := w.ops ++ [Op.deleteRemote k] } := by
  unfold deleteFromS3
  simp [hd]

theorem deleteLocal_ops (env : Env) (w : World) (k : String) :
    (deleteLocal env w k).ops = w.ops ++ [Op.deleteLocal k] := by
  unfold deleteLocal
  cases h : mget w.localDisk k
  · simp [h]
  · by_cases hd : env.delLocalOk k <;> simp [h, hd]

theorem deleteLocal_s3State (env : Env) (w : World) (k : String) :
    (deleteLocal env w k).s3State = w.s3State := by
  unfold deleteLocal
  cases h : mget w.localDisk k
  · simp [h]
  · by_cases hd : env.delLocalOk k <;> simp [h, hd]

theorem deleteLocal_s3Objects (env : Env) (w : World) (k : String) :
    (deleteLocal env w k).s3Objects = w.s3Objects := by
  unfold deleteLocal
  cases h : mget w.localDisk k
  · simp [h]
  · by_cases hd : env.delLocalOk k <;> simp [h, hd]

theorem deleteLocal_success (env : Env) (w : World) (k : String)
    (hp : (mget w.localDisk k).isSome) (hd : env.delLocalOk k = true) :
    deleteLocal env w k = { w with
      ops := w.ops ++ [Op.deleteLocal k],
      localDisk := mdel w.localDisk k,
      localState := mdel w.localState k } := by
  unfold deleteLocal
  cases h : mget w.localDisk k
  · rw [h] at hp
    simp at hp
  · simp [h, hd]

theorem deleteLocal_fail (env : Env) (w : World) (k : String)
    (hfail : ¬((mget w.localDisk k).isSome ∧ env.delLocalOk k = true)) :
    deleteLocal env w k = { w with ops := w.ops ++ [Op.deleteLocal k] } := by
  unfold deleteLocal
  cases h : mget w.localDisk k
  · simp [h]
  · rw [h] at hfail
    by_cases hd : env.delLocalOk k <;> simp [h, hd] at hfail ⊢

theorem initialDownloadPhase_dry (env : Env) (hd : env.isDryRun = true) :
    ∀ (l : List (String × FileState)) (w : World), initialDownloadPhase env l w = w := by
  intro l
  induction l with
  | nil => intro w; rfl
  | cons e rest ih =>
      intro w
      obtain ⟨key, sf⟩ := e
      unfold initialDownloadPhase
      by_cases hc : needsSync (mget w.localState key) sf <;> simp [hc, hd, ih]

theorem initialUploadPhase_dry (env : Env) (hd : env.isDryRun = true) :
    ∀ (l : List (String × FileState)) (w : World),
      initialUploadPhase env l w = Except.ok w := by
  intro l
  induction l with
  | nil => intro w; rfl
  | cons e rest ih =>
      intro w
      obtain ⟨key, lf⟩ := e
      unfold initialUploadPhase
      by_cases hc : needsSync (mget w.s3State key) lf <;> simp [hc, hd, ih]

theorem remoteDeletePhase_dry (env : Env) (hd : env.isDryRun = true) :
    ∀ (l : List (String × FileState)) (w : World), remoteDeletePhase env l w = w := by
  intro l
  induction l with
  | nil => intro w; rfl
  | cons e rest ih =>
      intro w
      obtain ⟨key, sf⟩ := e
      unfold remoteDeletePhase
      by_cases hc : (mget w.localState key).isSome <;> simp [hc, hd, ih]

theorem localDeletePhase_dry (env : Env) (hd : env.isDryRun = true) :
    ∀ (l : List (String × FileState)) (w : World), localDeletePhase env l w = w := by
  intro l
  induction l with
  | nil => intro w; rfl
  | cons e rest ih =>
      intro w
      obtain ⟨key, lf⟩ := e
      unfold localDeletePhase
      by_cases hc : (mget w.s3State key).isSome <;> simp [hc, hd, ih]

theorem initialDownloadPhase_s3State (env : Env) :
    ∀ (l : List (String × FileState)) (w : World),
      (initialDownloadPhase env l w).s3State = w.s3State := by
  intro l
  induction l with
  | nil => intro w; rfl
  | cons e rest ih =>
      intro w
      obtain ⟨key, sf⟩ := e
      unfold initialDownloadPhase
      rw [ih]
      by_cases hc : needsSync (mget w.localState key) sf <;>
        by_cases hd : env.isDryRun <;> simp [hc, hd, download_s3State]

theorem initialDownloadPhase_s3Objects (env : Env) :
    ∀ (l : List (String × FileState)) (w : World),
      (initialDownloadPhase env l w).s3Objects = w.s3Objects := by
  intro l
  induction l with
  | nil => intro w; rfl
  | cons e rest ih =>
      intro w
      obtain ⟨key, sf⟩ := e
      unfold initialDownloadPhase
      rw [ih]
      by_cases hc : needsSync (mget w.localState key) sf <;>
        by_cases hd : env.isDryRun <;> simp [hc, hd, download_s3Objects]

theorem initialDownloadPhase_ops_mono (env : Env) {op : Op} :
    ∀ (l : List (String × FileState)) (w : World),
      op ∈ w.ops → op ∈ (initialDownloadPhase env l w).ops := by
  intro l
  induction l with
  | nil => intro w h; exact h
  | cons e rest ih =>
      intro w h
      obtain ⟨key, sf⟩ := e
      unfold initialDownloadPhase
      apply ih
      by_cases hc : needsSync (mget w.localState key) sf <;>
        by_cases hd : env.isDryRun <;> simp [hc, hd, download_ops, h]

theorem initialDownloadPhase_ops_shape (env : Env) {op : Op} :
    ∀ (l : List (String × FileState)) (w : World),
      op ∈ (initialDownloadPhase env l w).ops →
      op ∈ w.ops ∨ ∃ k, op = Op.download k := by
  intro l
  induction l with
  | nil => intro w h; exact Or.inl h
  | cons e rest ih =>
      intro w h
      obtain ⟨key, sf⟩ := e
      unfold initialDownloadPhase at h
      rcases ih _ h with h1 | h1
      · by_cases hc : needsSync (mget w.localState key) sf <;>
          by_cases hd : env.isDryRun <;>
          simp [hc, hd, download_ops] at h1
        · exact Or.inl h1
        · rcases h1 with h1 | h1
          · exact Or.inl h1
          · exact Or.inr ⟨key, h1⟩
        · exact Or.inl h1
        · exact Or.inl h1
      · exact Or.inr h1

theorem initialUploadPhase_localState (env : Env) :
    ∀ (l : List (String × FileState)) (w : World),
      (outcome (initialUploadPhase env l w)).localState = w.localState := by
  intro l
  induction l with
  | nil => intro w; rfl
  | cons e rest ih =>
      intro w
      obtain ⟨key, lf⟩ := e
      unfold initialUploadPhase
      by_cases hc : needsSync (mget w.s3State key) lf <;>
        by_cases hd : env.isDryRun <;> simp [hc, hd, ih]
      cases hu : uploadToS3 env w key with
      | ok w' =>
          have hl := upload_outcome_localState env w key
          rw [hu] at hl
          simp [outcome] at hl
          simp [ih, hl]
      | error w' =>
          have hl := upload_outcome_localState env w key
          rw [hu] at hl
          simpa [outcome] using hl

theorem initialUploadPhase_localDisk (env : Env) :
    ∀ (l : List (String × FileState)) (w : World),
      (outcome (initialUploadPhase env l w)).localDisk = w.localDisk := by
  intro l
  induction l with
  | nil => intro w; rfl
  | cons e rest ih =>
      intro w
      obtain ⟨key, lf⟩ := e
      unfold initialUploadPhase
      by_cases hc : needsSync (mget w.s3State key) lf <;>
        by_cases hd : env.isDryRun <;> simp [hc, hd, ih]
      cases hu : uploadToS3 env w key with
      | ok w' =>
          have hl := upload_outcome_localDisk env w key
          rw [hu] at hl
          simp [outcome] at hl
          simp [ih, hl]
      | error w' =>
          have hl := upload_outcome_localDisk env w key
          rw [hu] at hl
          simpa [outcome] using hl

theorem initialUploadPhase_ops_shape (env : Env) {op : Op} :
    ∀ (l : List (String × FileState)) (w : World),
      op ∈ (outcome (initialUploadPhase env l w)).ops →
      op ∈ w.ops ∨ ∃ k, op = Op.upload k := by
  intro l
  induction l with
  | nil => intro w h; exact Or.inl h
  | cons e rest ih =>
      intro w h
      obtain ⟨key, lf⟩ := e
      unfold initialUploadPhase at h
      by_cases hc : needsSync (mget w.s3State key) lf <;>
        by_cases hd : env.isDryRun <;> simp [hc, hd] at h
      · exact ih _ h
      · cases hu : uploadToS3 env w key with
        | ok w' =>
            rw [hu] at h
            simp at h
            rcases ih _ h with h1 | h1
            · have hops := upload_outcome_ops env w key
              rw [hu] at hops
              simp [outcome] at hops
              rw [hops] at h1
              rcases List.mem_append.mp h1 with h2 | h2
              · exact Or.inl h2
              · simp at h2
                exact Or.inr ⟨key, h2⟩
            · exact Or.inr h1
        | error w' =>
            rw [hu] at h
            simp [outcome] at h
            have hops := upload_outcome_ops env w key
            rw [hu] at hops
            simp [outcome] at hops
            rw [hops] at h
            rcases List.mem_append.mp h with h2 | h2
            · exact Or.inl h2
            · simp at h2
              exact Or.inr ⟨key, h2⟩
      · exact ih _ h
      · exact ih _ h

theorem remoteDeletePhase_localState (env : Env) :
    ∀ (l : List (String × FileState)) (w : World),
      (remoteDeletePhase env l w).localState = w.localState := by
  intro l
  induction l with
  | nil => intro w; rfl
  | cons e rest ih =>
      intro w
      obtain ⟨key, sf⟩ := e
      unfold remoteDeletePhase
      rw [ih]
      by_cases hc : (mget w.localState key).isSome <;>
        by_cases hd : env.isDryRun <;> simp [hc, hd, deleteFromS3_localState]

theorem remoteDeletePhase_localDisk (env : Env) :
    ∀ (l : List (String × FileState)) (w : World),
      (remoteDeletePhase env l w).localDisk = w.localDisk := by
  intro l
  induction l with
  | nil => intro w; rfl
  | cons e rest ih =>
      intro w
      obtain ⟨key, sf⟩ := e
      unfold remoteDeletePhase
      rw [ih]
      by_cases hc : (mget w.localState key).isSome <;>
        by_cases hd : env.isDryRun <;> simp [hc, hd, deleteFromS3_localDisk]

theorem remoteDeletePhase_ops_shape (env : Env) {op : Op} :
    ∀ (l : List (String × FileState)) (w : World),
      op ∈ (remoteDeletePhase env l w).ops →
      op ∈ w.ops ∨ ∃ k, op = Op.deleteRemote k := by
  intro l
  induction l with
  | nil => intro w h; exact Or.inl h
  | cons e rest ih =>
      intro w h
      obtain ⟨key, sf⟩ := e
      unfold remoteDeletePhase at h
      rcases ih _ h with h1 | h1
      · by_cases hc : (mget w.localState key).isSome <;>
          by_cases hd : env.isDryRun <;>
          simp [hc, hd, deleteFromS3_ops] at h1
        · exact Or.inl h1
        · exact Or.inl h1
        · exact Or.inl h1
        · rcases h1 with h1 | h1
          · exact Or.inl h1
          · exact Or.inr ⟨key, h1⟩
      · exact Or.inr h1

theorem localDeletePhase_s3State (env : Env) :
    ∀ (l : List (String × FileState)) (w : World),
      (localDeletePhase env l w).s3State = w.s3State := by
  intro l
  induction l with
  | nil => intro w; rfl
  | cons e rest ih =>
      intro w
      obtain ⟨key, lf⟩ := e
      unfold localDeletePhase
      rw [ih]
      by_cases hc : (mget w.s3State key).isSome <;>
        by_cases hd : env.isDryRun <;> simp [hc, hd, deleteLocal_s3State]

theorem localDeletePhase_ops_shape (env : Env) {op : Op} :
    ∀ (l : List (String × FileState)) (w : World),
      op ∈ (localDeletePhase env l w).ops →
      op ∈ w.ops ∨ ∃ k, op = Op.deleteLocal k := by
  intro l
  induction l with
  | nil => intro w h; exact Or.inl h
  | cons e rest ih =>
      intro w h
      obtain ⟨key, lf⟩ := e
      unfold localDeletePhase at h
      rcases ih _ h with h1 | h1
      · by_cases hc : (mget w.s3State key).isSome <;>
          by_cases hd : env.isDryRun <;>
          simp [hc, hd, deleteLocal_ops] at h1
        · exact Or.inl h1
        · exact Or.inl h1
        · exact Or.inl h1
        · rcases h1 with h1 | h1
          · exact Or.inl h1
          · exact Or.inr ⟨key, h1⟩
      · exact Or.inr h1

theorem deleteSyncPhase_ops_shape (env : Env) {op : Op} :
    ∀ (l : List (String × FileState)) (w : World),
      op ∈ (deleteSyncPhase env l w).ops →
      op ∈ w.ops ∨ ∃ k, op = Op.deleteRemote k := by
  intro l
  induction l with
  | nil => intro w h; exact Or.inl h
  | cons e rest ih =>
      intro w h
      obtain ⟨key, sf⟩ := e
      unfold deleteSyncPhase at h
      rcases ih _ h with h1 | h1
      · by_cases hc : (mget w.localState key).isSome <;>
          simp [hc, deleteFromS3_ops] at h1
        · exact Or.inl h1
        · rcases h1 with h1 | h1
          · exact Or.inl h1
          · exact Or.inr ⟨key, h1⟩
      · exact Or.inr h1


/-- C1 (amended): with dry-run enabled, performInitialSync -- the initial
    full reconciliation -- returns the world completely unchanged: both
    StateStores are byte-for-byte identical and no upload, download or delete
    operation is executed (the operation log is untouched). The periodic and
    watcher-triggered paths do NOT enjoy this property, see the
    counterexample. -/
theorem dryRun_initial_sync_is_identity (env : Env) (w : World)
    (h : env.isDryRun = true) : performInitialSync env w = Except.ok w := by
  unfold performInitialSync
  simp only [initialDownloadPhase_dry env h, initialUploadPhase_dry env h,
    remoteDeletePhase_dry env h, localDeletePhase_dry env h]

theorem dryRun_initial_sync_is_identity_witness :
    envDryAllOk.isDryRun = true ∧
    performInitialSync envDryAllOk wLocalOnly = Except.ok wLocalOnly :=
  ⟨rfl, dryRun_initial_sync_is_identity envDryAllOk wLocalOnly rfl⟩

/-- C1 (counterexample): the claim extends dry-run non-mutation to every
    periodic pass, but syncLocalToS3 never consults config.isDryRun: with
    dry-run enabled on a world holding one local-only file, the periodic
    local-to-remote pass executes a real upload and mutates s3State. -/
theorem dryRun_periodic_pass_executes_and_mutates :
    envDryAllOk.isDryRun = true ∧
    (outcome (syncLocalToS3 envDryAllOk wLocalOnly)).ops = [Op.upload "a"] ∧
    (outcome (syncLocalToS3 envDryAllOk wLocalOnly)).s3State ≠ wLocalOnly.s3State := by
  decide

/-- C6: each operation updates exactly the prescribed StateStore entry when
    it succeeds -- upload sets the remote record from the freshly computed
    local fingerprint, download sets the local record from the fingerprint of
    the downloaded content, delete removes the entry from the affected side --
    and a failed operation leaves both StateStores unchanged. -/
theorem operation_state_contract (env : Env) (w : World) (k : String) :
    (∀ c, mget w.localDisk k = some c → env.readOk k = true →
      env.putOk k = true → env.md5UploadOk k = true →
      uploadToS3 env w k = Except.ok { w with
        ops := w.ops ++ [Op.upload k],
        s3Objects := mset w.s3Objects k c,
        s3State := mset w.s3State k ⟨k, c, env.now⟩ }) ∧
    (¬((mget w.localDisk k).isSome ∧ env.readOk k = true ∧ env.putOk k = true ∧
        env.md5UploadOk k = true) →
      (outcome (uploadToS3 env w k)).s3State = w.s3State ∧
      (outcome (uploadToS3 env w k)).localState = w.localState) ∧
    (∀ c, mget w.s3Objects k = some c → env.getOk k = true →
      env.md5DownloadOk k = true →
      downloadFromS3 env w k = { w with
        ops := w.ops ++ [Op.download k],
        localDisk := mset w.localDisk k c,
        localState := mset w.localState k ⟨k, c, env.now⟩ }) ∧
    (¬(env.getOk k = true ∧ (mget w.s3Objects k).isSome ∧
        env.md5DownloadOk k = true) →
      (downloadFromS3 env w k).localState = w.localState ∧
      (downloadFromS3 env w k).s3State = w.s3State) ∧
    (env.delRemoteOk k = true →
      deleteFromS3 env w k = { w with
        ops := w.ops ++ [Op.deleteRemote k],
        s3Objects := mdel w.s3Objects k,
        s3State := mdel w.s3State k }) ∧
    (env.delRemoteOk k = false →
      deleteFromS3 env w k = { w with ops := w.ops ++ [Op.deleteRemote k] }) ∧
    ((mget w.localDisk k).isSome → env.delLocalOk k = true →
      deleteLocal env w k = { w with
        ops := w.ops ++ [Op.deleteLocal k],
        localDisk := mdel w.localDisk k,
        localState := mdel w.localState k }) ∧
    (¬((mget w.localDisk k).isSome ∧ env.delLocalOk k = true) →
      deleteLocal env w k = { w with ops := w.ops ++ [Op.deleteLocal k] }) := by
  refine ⟨?_, ?_, ?_, ?_, ?_, ?_, ?_, ?_⟩
  · intro c hd hr hp hm
    exact upload_success env w k c hd hr hp hm
  · intro hf
    exact ⟨upload_fail_s3State env w k hf, upload_outcome_localState env w k⟩
  · intro c hd hg hm
    exact download_success env w k c hd hg hm
  · intro hf
    exact ⟨download_fail_localState env w k hf, download_s3State env w k⟩
  · intro hd
    exact deleteFromS3_success env w k hd
  · intro hd
    exact deleteFromS3_fail env w k hd
  · intro hp hd
    exact deleteLocal_success env w k hp hd
  · intro hf
    exact deleteLocal_fail env w k hf

theorem operation_state_contract_witness :
    uploadToS3 envAllOk wOneEach "a" = Except.ok { wOneEach with
      ops := wOneEach.ops ++ [Op.upload "a"],
      s3Objects := mset wOneEach.s3Objects "a" "h1",
      s3State := mset wOneEach.s3State "a" ⟨"a", "h1", 10⟩ } ∧
    deleteFromS3 envAllOk wOneEach "b" = { wOneEach with
      ops := wOneEach.ops ++ [Op.deleteRemote "b"],
      s3Objects := mdel wOneEach.s3Objects "b",
      s3State := mdel wOneEach.s3State "b" } :=
  ⟨(operation_state_contract envAllOk wOneEach "a").1 "h1" (by decide) rfl rfl rfl,
   (operation_state_contract envAllOk wOneEach "b").2.2.2.2.1 rfl⟩

/-- Case analysis for one syncStep: either the download trigger held and the
    step is a downloadFromS3 call, or the local record is fresh enough and
    the step does nothing. -/
theorem syncStep_cases (env : Env) (w : World) (obj : RemoteObject) :
    (syncStep env w obj = downloadFromS3 env w obj.key ∧
      (mget w.localState obj.key = none ∨
        ∃ lf, mget w.localState obj.key = some lf ∧
          lf.lastModified < obj.lastModified)) ∨
    (syncStep env w obj = w ∧
      ∃ lf, mget w.localState obj.key = some lf ∧
        ¬lf.lastModified < obj.lastModified) := by
  unfold syncStep
  cases hL : mget w.localState obj.key with
  | none => exact Or.inl ⟨rfl, Or.inl rfl⟩
  | some lf =>
      by_cases hlt : lf.lastModified < obj.lastModified
      · exact Or.inl ⟨by simp [hlt], Or.inr ⟨lf, rfl, hlt⟩⟩
      · exact Or.inr ⟨by simp [hlt], ⟨lf, rfl, hlt⟩⟩

theorem syncStep_ops_mono (env : Env) (w : World) (obj : RemoteObject)
    {op : Op} (h : op ∈ w.ops) : op ∈ (syncStep env w obj).ops := by
  rcases syncStep_cases env w obj with ⟨he, _⟩ | ⟨he, _⟩
  · rw [he, download_ops]
    exact List.mem_append.mpr (Or.inl h)
  · rw [he]
    exact h

theorem syncS3ToLocalLoop_ops_mono (env : Env) {op : Op} :
    ∀ (l : List RemoteObject) (w : World),
      op ∈ w.ops → op ∈ (syncS3ToLocalLoop env l w).ops := by
  intro l
  induction l with
  | nil => intro w h; exact h
  | cons o rest ih =>
      intro w h
      exact ih _ (syncStep_ops_mono env w o h)

theorem syncS3ToLocalLoop_ops_shape (env : Env) {op : Op} :
    ∀ (l : List RemoteObject) (w : World),
      op ∈ (syncS3ToLocalLoop env l w).ops →
      op ∈ w.ops ∨ ∃ o ∈ l, op = Op.download o.key := by
  intro l
  induction l with
  | nil => intro w h; exact Or.inl h
  | cons o rest ih =>
      intro w h
      unfold syncS3ToLocalLoop at h
      rcases ih _ h with h1 | ⟨o', ho', heq⟩
      · rcases syncStep_cases env w o with ⟨he, _⟩ | ⟨he, _⟩
        · rw [he, download_ops] at h1
          rcases List.mem_append.mp h1 with h2 | h2
          · exact Or.inl h2
          · simp at h2
            exact Or.inr ⟨o, by simp, h2⟩
        · rw [he] at h1
          exact Or.inl h1
      · exact Or.inr ⟨o', List.mem_cons_of_mem _ ho', heq⟩

/-- C8: in the periodic remote-change scan, for every entry of the re-listed
    remote contents a download is executed exactly when the listed
    LastModified is strictly newer than the locally recorded lastModified for
    that path, or the path has no local record at all. The characterization
    mentions only lastModified and record presence, never a fingerprint. -/
theorem syncS3ToLocal_download_decision (env : Env)
    (listing : List RemoteObject) (w : World)
    (hnd : (listing.map RemoteObject.key).Nodup) :
    ∀ obj ∈ listing,
      (Op.download obj.key ∈ (syncS3ToLocal env listing w).ops ↔
        Op.download obj.key ∈ w.ops ∨
        mget w.localState obj.key = none ∨
        ∃ lf, mget w.localState obj.key = some lf ∧
          lf.lastModified < obj.lastModified) := by
  unfold syncS3ToLocal
  revert w hnd
  induction listing with
  | nil =>
      intro w hnd obj hobj
      simp at hobj
  | cons o rest ih =>
      intro w hnd obj hobj
      have hndp := List.nodup_cons.mp hnd
      have hko : o.key ∉ rest.map RemoteObject.key := hndp.1
      have hndr : (rest.map RemoteObject.key).Nodup := hndp.2
      rcases List.mem_cons.mp hobj with hoe | hor
      · subst hoe
        unfold syncS3ToLocalLoop
        rcases syncStep_cases env w obj with ⟨he, hcond⟩ | ⟨he, lf, hL, hnlt⟩
        · rw [he]
          constructor
          · intro _
            exact Or.inr hcond
          · intro _
            apply syncS3ToLocalLoop_ops_mono
            rw [download_ops]
            simp
        · rw [he]
          constructor
          · intro hmem
            rcases syncS3ToLocalLoop_ops_shape env rest w hmem with h1 | ⟨o', ho', heq⟩
            · exact Or.inl h1
            · exfalso
              have hkk : obj.key = o'.key := by injection heq
              exact hko (hkk ▸ List.mem_map.mpr ⟨o', ho', rfl⟩)
          · intro hr
            rcases hr with h1 | h1 | ⟨lf', heq, hlt'⟩
            · exact syncS3ToLocalLoop_ops_mono env rest w h1
            · rw [hL] at h1
              exact absurd h1 (by simp)
            · rw [hL] at heq
              have hlf : lf = lf' := Option.some.inj heq
              subst hlf
              exact absurd hlt' hnlt
      · have hkey : obj.key ≠ o.key := by
          intro he
          exact hko (he ▸ List.mem_map.mpr ⟨obj, hor, rfl⟩)
        unfold syncS3ToLocalLoop
        rw [ih (syncStep env w o) hndr obj hor]
        have hstate : mget (syncStep env w o).localState obj.key =
            mget w.localState obj.key := by
          rcases syncStep_cases env w o with ⟨he, _⟩ | ⟨he, _⟩
          · rw [he]
            exact download_localState_ne env w o.key obj.key hkey
          · rw [he]
        have hops : (Op.download obj.key ∈ (syncStep env w o).ops) ↔
            Op.download obj.key ∈ w.ops := by
          rcases syncStep_cases env w o with ⟨he, _⟩ | ⟨he, _⟩
          · rw [he, download_ops]
            constructor
            · intro h1
              rcases List.mem_append.mp h1 with h2 | h2
              · exact h2
              · simp at h2
                exact absurd h2 hkey
            · intro h1
              exact List.mem_append.mpr (Or.inl h1)
          · rw [he]
        rw [hstate, hops]

theorem syncS3ToLocal_download_decision_witness :
    (Op.download "a" ∈ (syncS3ToLocal envAllOk listedObjects wListed).ops ↔
      Op.download "a" ∈ wListed.ops ∨
      mget wListed.localState "a" = none ∨
      ∃ lf, mget wListed.localState "a" = some lf ∧ lf.lastModified < 2) ∧
    (Op.download "b" ∈ (syncS3ToLocal envAllOk listedObjects wListed).ops ↔
      Op.download "b" ∈ wListed.ops ∨
      mget wListed.localState "b" = none ∨
      ∃ lf, mget wListed.localState "b" = some lf ∧ lf.lastModified < 1) :=
  ⟨syncS3ToLocal_download_decision envAllOk listedObjects wListed (by decide)
      ⟨"a", "x", 2⟩ (by decide),
   syncS3ToLocal_download_decision envAllOk listedObjects wListed (by decide)
      ⟨"b", "y", 1⟩ (by decide)⟩

theorem initialDownloadPhase_localState_stable (env : Env) (p : String) :
    ∀ (l : List (String × FileState)) (w : World), p ∉ mapKeys l →
      mget (initialDownloadPhase env l w).localState p = mget w.localState p := by
  intro l
  induction l with
  | nil => intro w _; rfl
  | cons e rest ih =>
      intro w h
      obtain ⟨key, sf⟩ := e
      simp [mapKeys] at h
      obtain ⟨hkp, hrest⟩ := h
      unfold initialDownloadPhase
      rw [ih _ (by simpa [mapKeys] using hrest)]
      by_cases hc : needsSync (mget w.localState key) sf <;>
        by_cases hd : env.isDryRun <;>
        simp [hc, hd, download_localState_ne env w key p hkp]

theorem initialDownloadPhase_keysNodup (env : Env) :
    ∀ (l : List (String × FileState)) (w : World),
      keysNodup w.localState → keysNodup (initialDownloadPhase env l w).localState := by
  intro l
  induction l with
  | nil => intro w h; exact h
  | cons e rest ih =>
      intro w h
      obtain ⟨key, sf⟩ := e
      unfold initialDownloadPhase
      apply ih
      by_cases hc : needsSync (mget w.localState key) sf <;>
        by_cases hd : env.isDryRun <;> simp [hc, hd, h]
      all_goals
        rcases download_localState_cases env w key with hcs | ⟨c, _, hcs⟩
      · rw [hcs]; exact h
      · rw [hcs]; exact keysNodup_mset key _ h

theorem initialDownloadPhase_no_download (env : Env) (p : String) (lf : FileState) :
    ∀ (l : List (String × FileState)) (w : World),
      mget w.localState p = some lf →
      (∀ f : FileState, (p, f) ∈ l → f.md5 = lf.md5) →
      (Op.download p ∈ (initialDownloadPhase env l w).ops → Op.download p ∈ w.ops) ∧
      mget (initialDownloadPhase env l w).localState p = some lf := by
  intro l
  induction l with
  | nil => intro w hl _; exact ⟨fun h => h, hl⟩
  | cons e rest ih =>
      intro w hl hall
      obtain ⟨key, sf⟩ := e
      have hrest : ∀ f : FileState, (p, f) ∈ rest → f.md5 = lf.md5 :=
        fun f hf => hall f (List.mem_cons_of_mem _ hf)
      by_cases hkp : key = p
      · subst hkp
        have hmd : sf.md5 = lf.md5 := hall sf (by simp)
        have hns : needsSync (mget w.localState key) sf = false := by
          rw [hl]
          simp [needsSync, hmd]
        unfold initialDownloadPhase
        simp only [hns, Bool.false_eq_true, if_false]
        exact ih w hl hrest
      · have hpk : p ≠ key := fun he => hkp he.symm
        unfold initialDownloadPhase
        by_cases hc : needsSync (mget w.localState key) sf
        · by_cases hd : env.isDryRun
          · simp only [hc, if_true, hd]
            exact ih w hl hrest
          · simp only [hc, if_true, hd, Bool.false_eq_true, if_false]
            have hl2 : mget (downloadFromS3 env w key).localState p = some lf := by
              rw [download_localState_ne env w key p hpk]
              exact hl
            obtain ⟨hops2, hst2⟩ := ih (downloadFromS3 env w key) hl2 hrest
            refine ⟨?_, hst2⟩
            intro hin
            have h2 := hops2 hin
            rw [download_ops] at h2
            rcases List.mem_append.mp h2 with h3 | h3
            · exact h3
            · simp at h3
              exact absurd h3 hpk
        · simp only [Bool.not_eq_true] at hc
          simp only [hc, Bool.false_eq_true, if_false]
          exact ih w hl hrest

theorem initialDownloadPhase_conflict (env : Env) (p : String) (lf sf : FileState)
    (hdry : env.isDryRun = false) (hne : lf.md5 ≠ sf.md5)
    (hget : env.getOk p = true) (hmd : env.md5DownloadOk p = true) :
    ∀ (l : List (String × FileState)) (w : World),
      (p, sf) ∈ l → keysNodup l → mget w.localState p = some lf →
      ∀ c, mget w.s3Objects p = some c →
      Op.download p ∈ (initialDownloadPhase env l w).ops ∧
      mget (initialDownloadPhase env l w).localState p = some ⟨p, c, env.now⟩ := by
  intro l
  induction l with
  | nil =>
      intro w hmem
      simp at hmem
  | cons e rest ih =>
      intro w hmem hnd hl c hc
      obtain ⟨key, sf'⟩ := e
      have hnd' := hnd
      simp [keysNodup, mapKeys] at hnd'
      have hndr : keysNodup rest := by
        simpa [keysNodup, mapKeys] using hnd'.2
      by_cases hkp : key = p
      · subst hkp
        have hsf : sf' = sf := by
          rcases List.mem_cons.mp hmem with hh | hr
          · obtain ⟨h1, h2⟩ := Prod.mk.injEq .. ▸ hh
            exact h2.symm
          · exact absurd hr (by
              intro hr
              exact hnd'.1 sf hr)
        subst hsf
        have hnotin : key ∉ mapKeys rest := by
          simp [mapKeys]
          intro b hb
          exact hnd'.1 b hb
        unfold initialDownloadPhase
        have hns : needsSync (mget w.localState key) sf' = true := by
          rw [hl]
          simp [needsSync, bne_iff_ne]
          exact hne
        simp only [hns, if_true, hdry, Bool.false_eq_true, if_false]
        rw [download_success env w key c hc hget hmd]
        constructor
        · apply initialDownloadPhase_ops_mono
          simp
        · rw [initialDownloadPhase_localState_stable env key rest _ hnotin]
          simp [mget_mset_self]
      · have hpk : p ≠ key := fun he => hkp he.symm
        have hrest : (p, sf) ∈ rest := by
          rcases List.mem_cons.mp hmem with hh | hr
          · obtain ⟨h1, h2⟩ := Prod.mk.injEq .. ▸ hh
            exact absurd h1.symm hkp
          · exact hr
        unfold initialDownloadPhase
        by_cases hcn : needsSync (mget w.localState key) sf'
        · by_cases hd : env.isDryRun
          · rw [hd] at hdry
            exact absurd hdry (by simp)
          · simp only [hcn, if_true, hd, Bool.false_eq_true, if_false]
            apply ih (downloadFromS3 env w key) hrest hndr
            · rw [download_localState_ne env w key p hpk]
              exact hl
            · rw [download_s3Objects]
              exact hc
        · simp only [Bool.not_eq_true] at hcn
          simp only [hcn, Bool.false_eq_true, if_false]
          exact ih w hrest hndr hl c hc

theorem initialUploadPhase_ops_mono (env : Env) {op : Op} :
    ∀ (l : List (String × FileState)) (w : World),
      op ∈ w.ops → op ∈ (outcome (initialUploadPhase env l w)).ops := by
  intro l
  induction l with
  | nil => intro w h; exact h
  | cons e rest ih =>
      intro w h
      obtain ⟨key, lf⟩ := e
      unfold initialUploadPhase
      by_cases hc : needsSync (mget w.s3State key) lf <;>
        by_cases hd : env.isDryRun <;> simp [hc, hd, ih _ h]
      cases hu : uploadToS3 env w key with
      | ok w' =>
          show op ∈ (outcome (initialUploadPhase env rest w')).ops
          have hops := upload_outcome_ops env w key
          rw [hu] at hops
          simp [outcome] at hops
          apply ih
          rw [hops]
          exact List.mem_append.mpr (Or.inl h)
      | error w' =>
          show op ∈ w'.ops
          have hops := upload_outcome_ops env w key
          rw [hu] at hops
          simp [outcome] at hops
          rw [hops]
          exact List.mem_append.mpr (Or.inl h)

theorem initialUploadPhase_no_upload (env : Env) (p : String) (sf : FileState) :
    ∀ (l : List (String × FileState)) (w : World),
      mget w.s3State p = some sf →
      (∀ f : FileState, (p, f) ∈ l → f.md5 = sf.md5) →
      (Op.upload p ∈ (outcome (initialUploadPhase env l w)).ops → Op.upload p ∈ w.ops) ∧
      mget (outcome (initialUploadPhase env l w)).s3State p = some sf := by
  intro l
  induction l with
  | nil => intro w hs _; exact ⟨fun h => h, hs⟩
  | cons e rest ih =>
      intro w hs hall
      obtain ⟨key, lf⟩ := e
      have hrest : ∀ f : FileState, (p, f) ∈ rest → f.md5 = sf.md5 :=
        fun f hf => hall f (List.mem_cons_of_mem _ hf)
      by_cases hkp : key = p
      · subst hkp
        have hmd : lf.md5 = sf.md5 := hall lf (by simp)
        have hns : needsSync (mget w.s3State key) lf = false := by
          rw [hs]
          simp [needsSync, hmd]
        unfold initialUploadPhase
        simp only [hns, Bool.false_eq_true, if_false]
        exact ih w hs hrest
      · have hpk : p ≠ key := fun he => hkp he.symm
        unfold initialUploadPhase
        by_cases hc : needsSync (mget w.s3State key) lf
        · by_cases hd : env.isDryRun
          · simp only [hc, if_true, hd]
            exact ih w hs hrest
          · simp only [hc, if_true, hd, Bool.false_eq_true, if_false]
            cases hu : uploadToS3 env w key with
            | ok w' =>
                have hcases := upload_s3State_cases env w key
                rw [hu] at hcases
                simp [outcome] at hcases
                have hs2 : mget w'.s3State p = some sf := by
                  rcases hcases with hcs | ⟨c, _, hcs⟩
                  · rw [hcs]; exact hs
                  · rw [hcs, mget_mset_ne _ _ _ _ hpk]; exact hs
                obtain ⟨hops2, hst2⟩ := ih w' hs2 hrest
                refine ⟨?_, hst2⟩
                intro hin
                have h2 := hops2 hin
                have hops := upload_outcome_ops env w key
                rw [hu] at hops
                simp [outcome] at hops
                rw [hops] at h2
                rcases List.mem_append.mp h2 with h3 | h3
                · exact h3
                · simp at h3
                  exact absurd h3 hpk
            | error w' =>
                have hops := upload_outcome_ops env w key
                rw [hu] at hops
                simp [outcome] at hops
                have hcases := upload_s3State_cases env w key
                rw [hu] at hcases
                simp [outcome] at hcases
                constructor
                · intro hin
                  simp [outcome] at hin
                  rw [hops] at hin
                  rcases List.mem_append.mp hin with h3 | h3
                  · exact h3
                  · simp at h3
                    exact absurd h3 hpk
                · simp only [outcome]
                  rcases hcases with hcs | ⟨c, _, hcs⟩
                  · rw [hcs]; exact hs
                  · rw [hcs, mget_mset_ne _ _ _ _ hpk]; exact hs
        · simp only [Bool.not_eq_true] at hc
          simp only [hc, Bool.false_eq_true, if_false]
          exact ih w hs hrest

theorem uploadSyncPhase_no_upload (env : Env) (p : String) (sf : FileState) :
    ∀ (l : List (String × FileState)) (w : World),
      mget w.s3State p = some sf →
      (∀ f : FileState, (p, f) ∈ l → f.md5 = sf.md5) →
      (Op.upload p ∈ (outcome (uploadSyncPhase env l w)).ops → Op.upload p ∈ w.ops) ∧
      mget (outcome (uploadSyncPhase env l w)).s3State p = some sf := by
  intro l
  induction l with
  | nil => intro w hs _; exact ⟨fun h => h, hs⟩
  | cons e rest ih =>
      intro w hs hall
      obtain ⟨key, lf⟩ := e
      have hrest : ∀ f : FileState, (p, f) ∈ rest → f.md5 = sf.md5 :=
        fun f hf => hall f (List.mem_cons_of_mem _ hf)
      by_cases hkp : key = p
      · subst hkp
        have hmd : lf.md5 = sf.md5 := hall lf (by simp)
        have hns : needsSync (mget w.s3State key) lf = false := by
          rw [hs]
          simp [needsSync, hmd]
        unfold uploadSyncPhase
        simp only [hns, Bool.false_eq_true, if_false]
        exact ih w hs hrest
      · have hpk : p ≠ key := fun he => hkp he.symm
        unfold uploadSyncPhase
        by_cases hc : needsSync (mget w.s3State key) lf
        · simp only [hc, if_true]
          cases hu : uploadToS3 env w key with
          | ok w' =>
              have hcases := upload_s3State_cases env w key
              rw [hu] at hcases
              simp [outcome] at hcases
              have hs2 : mget w'.s3State p = some sf := by
                rcases hcases with hcs | ⟨c, _, hcs⟩
                · rw [hcs]; exact hs
                · rw [hcs, mget_mset_ne _ _ _ _ hpk]; exact hs
              obtain ⟨hops2, hst2⟩ := ih w' hs2 hrest
              refine ⟨?_, hst2⟩
              intro hin
              have h2 := hops2 hin
              have hops := upload_outcome_ops env w key
              rw [hu] at hops
              simp [outcome] at hops
              rw [hops] at h2
              rcases List.mem_append.mp h2 with h3 | h3
              · exact h3
              · simp at h3
                exact absurd h3 hpk
          | error w' =>
              have hops := upload_outcome_ops env w key
              rw [hu] at hops
              simp [outcome] at hops
              have hcases := upload_s3State_cases env w key
              rw [hu] at hcases
              simp [outcome] at hcases
              constructor
              · intro hin
                simp [outcome] at hin
                rw [hops] at hin
                rcases List.mem_append.mp hin with h3 | h3
                · exact h3
                · simp at h3
                  exact absurd h3 hpk
              · simp only [outcome]
                rcases hcases with hcs | ⟨c, _, hcs⟩
                · rw [hcs]; exact hs
                · rw [hcs, mget_mset_ne _ _ _ _ hpk]; exact hs
        · simp only [Bool.not_eq_true] at hc
          simp only [hc, Bool.false_eq_true, if_false]
          exact ih w hs hrest

theorem remoteDeletePhase_ops_mono (env : Env) {op : Op} :
    ∀ (l : List (String × FileState)) (w : World),
      op ∈ w.ops → op ∈ (remoteDeletePhase env l w).ops := by
  intro l
  induction l with
  | nil => intro w h; exact h
  | cons e rest ih =>
      intro w h
      obtain ⟨key, sf⟩ := e
      unfold remoteDeletePhase
      apply ih
      by_cases hc : (mget w.localState key).isSome <;>
        by_cases hd : env.isDryRun <;> simp [hc, hd, deleteFromS3_ops, h]

theorem localDeletePhase_ops_mono (env : Env) {op : Op} :
    ∀ (l : List (String × FileState)) (w : World),
      op ∈ w.ops → op ∈ (localDeletePhase env l w).ops := by
  intro l
  induction l with
  | nil => intro w h; exact h
  | cons e rest ih =>
      intro w h
      obtain ⟨key, lf⟩ := e
      unfold localDeletePhase
      apply ih
      by_cases hc : (mget w.s3State key).isSome <;>
        by_cases hd : env.isDryRun <;> simp [hc, hd, deleteLocal_ops, h]

/-- Unfolding equation for performInitialSync with the intermediate lets
    expanded. -/
theorem performInitialSync_eq (env : Env) (w : World) :
    performInitialSync env w =
      match initialUploadPhase env
          (initialDownloadPhase env w.s3State w).localState
          (initialDownloadPhase env w.s3State w) with
      | Except.error w2 => Except.error w2
      | Except.ok w2 =>
          Except.ok (localDeletePhase env
            (remoteDeletePhase env w2.s3State w2).localState
            (remoteDeletePhase env w2.s3State w2)) := rfl

theorem performInitialSync_ok_eq (env : Env) (w : World) {w2 : World}
    (hu : initialUploadPhase env
        (initialDownloadPhase env w.s3State w).localState
        (initialDownloadPhase env w.s3State w) = Except.ok w2) :
    performInitialSync env w =
      Except.ok (localDeletePhase env
        (remoteDeletePhase env w2.s3State w2).localState
        (remoteDeletePhase env w2.s3State w2)) := by
  rw [performInitialSync_eq, hu]

theorem performInitialSync_error_eq (env : Env) (w : World) {w2 : World}
    (hu : initialUploadPhase env
        (initialDownloadPhase env w.s3State w).localState
        (initialDownloadPhase env w.s3State w) = Except.error w2) :
    performInitialSync env w = Except.error w2 := by
  rw [performInitialSync_eq, hu]

/-- Unfolding equation for syncLocalToS3. -/
theorem syncLocalToS3_eq (env : Env) (w : World) :
    syncLocalToS3 env w =
      match uploadSyncPhase env w.localState w with
      | Except.error w1 => Except.error w1
      | Except.ok w1 => Except.ok (deleteSyncPhase env w1.s3State w1) := rfl

/-- Any operation in the final log of performInitialSync either was already
    logged by the end of the upload phase, or is a delete appended by one of
    the two delete phases. -/
theorem performInitialSync_ops_origin (env : Env) (w : World) {op : Op}
    (h : op ∈ (outcome (performInitialSync env w)).ops) :
    op ∈ (outcome (initialUploadPhase env
        (initialDownloadPhase env w.s3State w).localState
        (initialDownloadPhase env w.s3State w))).ops ∨
      (∃ k, op = Op.deleteRemote k) ∨ (∃ k, op = Op.deleteLocal k) := by
  cases hu : initialUploadPhase env
      (initialDownloadPhase env w.s3State w).localState
      (initialDownloadPhase env w.s3State w) with
  | ok w2 =>
      rw [performInitialSync_ok_eq env w hu] at h
      simp [outcome] at h
      rcases localDeletePhase_ops_shape env _ _ h with h1 | h1
      · rcases remoteDeletePhase_ops_shape env _ _ h1 with h2 | h2
        · exact Or.inl h2
        · exact Or.inr (Or.inl h2)
      · exact Or.inr (Or.inr h1)
  | error w2 =>
      rw [performInitialSync_error_eq env w hu] at h
      simp [outcome] at h
      exact Or.inl h

/-- Any operation logged by the download phase is still in the final log of
    performInitialSync. -/
theorem performInitialSync_ops_of_phase1 (env : Env) (w : World) {op : Op}
    (h : op ∈ (initialDownloadPhase env w.s3State w).ops) :
    op ∈ (outcome (performInitialSync env w)).ops := by
  cases hu : initialUploadPhase env
      (initialDownloadPhase env w.s3State w).localState
      (initialDownloadPhase env w.s3State w) with
  | ok w2 =>
      rw [performInitialSync_ok_eq env w hu]
      simp [outcome]
      apply localDeletePhase_ops_mono
      apply remoteDeletePhase_ops_mono
      have h2 := initialUploadPhase_ops_mono env
        (initialDownloadPhase env w.s3State w).localState
        (initialDownloadPhase env w.s3State w) h
      rw [hu] at h2
      simpa [outcome] using h2
  | error w2 =>
      rw [performInitialSync_error_eq env w hu]
      simp [outcome]
      have h2 := initialUploadPhase_ops_mono env
        (initialDownloadPhase env w.s3State w).localState
        (initialDownloadPhase env w.s3State w) h
      rw [hu] at h2
      simpa [outcome] using h2

/-- Any operation in the final log of syncLocalToS3 either was logged by the
    end of its upload loop or is a remote delete from its delete loop. -/
theorem syncLocalToS3_ops_origin (env : Env) (w : World) {op : Op}
    (h : op ∈ (outcome (syncLocalToS3 env w)).ops) :
    op ∈ (outcome (uploadSyncPhase env w.localState w)).ops ∨
      ∃ k, op = Op.deleteRemote k := by
  rw [syncLocalToS3_eq] at h
  cases hu : uploadSyncPhase env w.localState w with
  | ok w2 =>
      rw [hu] at h
      simp [outcome] at h
      rcases deleteSyncPhase_ops_shape env _ _ h with h1 | h1
      · exact Or.inl h1
      · exact Or.inr h1
  | error w2 =>
      rw [hu] at h
      simp [outcome] at h
      exact Or.inl h

/-- C7 (amended): if path p is recorded on both sides with equal
    fingerprints, the full initial reconciliation executes neither a download
    nor an upload for p, and the upload half of the periodic pass
    (syncLocalToS3) executes no upload for p. The remote-change half
    (syncS3ToLocal) is excluded: it decides by lastModified and can download
    p even when fingerprints are identical (see the counterexample). -/
theorem identical_content_no_transfer (env : Env) (w : World) (p : String)
    (lf sf : FileState)
    (hl : mget w.localState p = some lf) (hs : mget w.s3State p = some sf)
    (heq : lf.md5 = sf.md5)
    (hndl : keysNodup w.localState) (hnds : keysNodup w.s3State)
    (hops : w.ops = []) :
    (Op.download p ∉ (outcome (performInitialSync env w)).ops ∧
     Op.upload p ∉ (outcome (performInitialSync env w)).ops) ∧
    Op.upload p ∉ (outcome (syncLocalToS3 env w)).ops := by
  have hall1 : ∀ f : FileState, (p, f) ∈ w.s3State → f.md5 = lf.md5 := by
    intro f hf
    have h2 := mget_of_mem_nodup hnds hf
    rw [hs] at h2
    have h3 : sf = f := Option.some.inj h2
    rw [← h3]
    exact heq.symm
  obtain ⟨hnd1, hst1⟩ :=
    initialDownloadPhase_no_download env p lf w.s3State w hl hall1
  have hs1 : mget (initialDownloadPhase env w.s3State w).s3State p = some sf := by
    rw [initialDownloadPhase_s3State]
    exact hs
  have hnd1n : keysNodup (initialDownloadPhase env w.s3State w).localState :=
    initialDownloadPhase_keysNodup env w.s3State w hndl
  have hall2 : ∀ f : FileState,
      (p, f) ∈ (initialDownloadPhase env w.s3State w).localState →
      f.md5 = sf.md5 := by
    intro f hf
    have h2 := mget_of_mem_nodup hnd1n hf
    rw [hst1] at h2
    have h3 : lf = f := Option.some.inj h2
    rw [← h3]
    exact heq
  obtain ⟨hnup, _⟩ := initialUploadPhase_no_upload env p sf
      (initialDownloadPhase env w.s3State w).localState
      (initialDownloadPhase env w.s3State w) hs1 hall2
  refine ⟨⟨?_, ?_⟩, ?_⟩
  · intro hin
    rcases performInitialSync_ops_origin env w hin with h1 | ⟨k, hk⟩ | ⟨k, hk⟩
    · rcases initialUploadPhase_ops_shape env _ _ h1 with h2 | ⟨k, hk⟩
      · have h3 := hnd1 h2
        rw [hops] at h3
        simp at h3
      · exact Op.noConfusion hk
    · exact Op.noConfusion hk
    · exact Op.noConfusion hk
  · intro hin
    rcases performInitialSync_ops_origin env w hin with h1 | ⟨k, hk⟩ | ⟨k, hk⟩
    · have h2 := hnup h1
      rcases initialDownloadPhase_ops_shape env _ _ h2 with h3 | ⟨k, hk⟩
      · rw [hops] at h3
        simp at h3
      · exact Op.noConfusion hk
    · exact Op.noConfusion hk
    · exact Op.noConfusion hk
  · have hallw : ∀ f : FileState, (p, f) ∈ w.localState → f.md5 = sf.md5 := by
      intro f hf
      have h2 := mget_of_mem_nodup hndl hf
      rw [hl] at h2
      have h3 : lf = f := Option.some.inj h2
      rw [← h3]
      exact heq
    obtain ⟨hnup2, _⟩ := uploadSyncPhase_no_upload env p sf w.localState w hs hallw
    intro hin
    rcases syncLocalToS3_ops_origin env w hin with h1 | ⟨k, hk⟩
    · have h2 := hnup2 h1
      rw [hops] at h2
      simp at h2
    · exact Op.noConfusion hk

theorem identical_content_no_transfer_witness :
    (Op.download "p" ∉ (outcome (performInitialSync envAllOk wSamePath)).ops ∧
     Op.upload "p" ∉ (outcome (performInitialSync envAllOk wSamePath)).ops) ∧
    Op.upload "p" ∉ (outcome (syncLocalToS3 envAllOk wSamePath)).ops :=
  identical_content_no_transfer envAllOk wSamePath "p" ⟨"p", "h", 3⟩ ⟨"p", "h", 3⟩
    (by decide) (by decide) rfl (by decide) (by decide) rfl

/-- C7 (counterexample): the claim also covers the periodic pass, whose
    syncS3ToLocal half compares timestamps, not fingerprints: with p recorded
    on both sides with the SAME fingerprint h but a remote listing entry whose
    LastModified 5 is newer than the local record 3, a download for p is
    executed. -/
theorem identical_content_periodic_still_downloads :
    mget wSamePath.localState "p" = some ⟨"p", "h", 3⟩ ∧
    mget wSamePath.s3State "p" = some ⟨"p", "h", 3⟩ ∧
    (syncS3ToLocal envAllOk [⟨"p", "h", 5⟩] wSamePath).ops = [Op.download "p"] := by
  decide

/-- C2 (amended): when both sides record p with differing fingerprints, the
    full pass always executes a download for p first; but when the download
    succeeds and the recorded remote fingerprint matches the downloaded
    content (the normal accurate-ETag case), the upload phase finds the
    fingerprints equal and executes NO upload for p — remote wins, and the
    claim that BOTH operations run in the same pass fails. -/
theorem conflict_download_no_redundant_upload (env : Env) (w : World)
    (p : String) (lf sf : FileState)
    (hdry : env.isDryRun = false)
    (hl : mget w.localState p = some lf) (hs : mget w.s3State p = some sf)
    (hne : lf.md5 ≠ sf.md5)
    (hndl : keysNodup w.localState) (hnds : keysNodup w.s3State)
    (hops : w.ops = [])
    (hget : env.getOk p = true) (hmd : env.md5DownloadOk p = true)
    (hobj : mget w.s3Objects p = some sf.md5) :
    Op.download p ∈ (outcome (performInitialSync env w)).ops ∧
    Op.upload p ∉ (outcome (performInitialSync env w)).ops := by
  have hmem : (p, sf) ∈ w.s3State := mem_of_mget hs
  obtain ⟨hdl, hst1⟩ := initialDownloadPhase_conflict env p lf sf hdry hne hget hmd
      w.s3State w hmem hnds hl sf.md5 hobj
  constructor
  · exact performInitialSync_ops_of_phase1 env w hdl
  · have hs1 : mget (initialDownloadPhase env w.s3State w).s3State p = some sf := by
      rw [initialDownloadPhase_s3State]
      exact hs
    have hnd1n : keysNodup (initialDownloadPhase env w.s3State w).localState :=
      initialDownloadPhase_keysNodup env w.s3State w hndl
    have hall2 : ∀ f : FileState,
        (p, f) ∈ (initialDownloadPhase env w.s3State w).localState →
        f.md5 = sf.md5 := by
      intro f hf
      have h2 := mget_of_mem_nodup hnd1n hf
      rw [hst1] at h2
      have h3 : FileState.mk p sf.md5 env.now = f := Option.some.inj h2
      rw [← h3]
    obtain ⟨hnup, _⟩ := initialUploadPhase_no_upload env p sf
        (initialDownloadPhase env w.s3State w).localState
        (initialDownloadPhase env w.s3State w) hs1 hall2
    intro hin
    rcases performInitialSync_ops_origin env w hin with h1 | ⟨k, hk⟩ | ⟨k, hk⟩
    · have h2 := hnup h1
      rcases initialDownloadPhase_ops_shape env _ _ h2 with h3 | ⟨k, hk⟩
      · rw [hops] at h3
        simp at h3
      · exact Op.noConfusion hk
    · exact Op.noConfusion hk
    · exact Op.noConfusion hk

theorem conflict_download_no_redundant_upload_witness :
    Op.download "p" ∈ (outcome (performInitialSync envAllOk wConflict)).ops ∧
    Op.upload "p" ∉ (outcome (performInitialSync envAllOk wConflict)).ops :=
  conflict_download_no_redundant_upload envAllOk wConflict "p"
    ⟨"p", "h1", 0⟩ ⟨"p", "h2", 0⟩ rfl (by decide) (by decide) (by decide)
    (by decide) (by decide) rfl rfl rfl (by decide)

/-- C2 (counterexample): on the conflict world (p on both sides, fingerprints
    h1 vs h2, accurate records, every operation succeeding) the full pass
    executes ONLY the download — no upload is scheduled for p in the same
    pass, contradicting the claim that both always are. -/
theorem conflict_not_both_scheduled :
    mget wConflict.localState "p" = some ⟨"p", "h1", 0⟩ ∧
    mget wConflict.s3State "p" = some ⟨"p", "h2", 0⟩ ∧
    (outcome (performInitialSync envAllOk wConflict)).ops = [Op.download "p"] := by
  decide

theorem mem_mset {α : Type} (m : List (String × α)) (k : String) (v : α) :
    ∀ e ∈ mset m k v, e ∈ m ∨ (e.1 = k ∧ e.2 = v) := by
  induction m with
  | nil =>
      intro e he
      simp [mset] at he
      simp [he]
  | cons e0 rest ih =>
      intro e he
      obtain ⟨k₀, v₀⟩ := e0
      by_cases h0 : k₀ = k
      · simp [mset, h0] at he
        rcases he with he | he
        · exact Or.inr (by simp [he, h0])
        · exact Or.inl (List.mem_cons_of_mem _ he)
      · simp [mset, h0] at he
        rcases he with he | he
        · exact Or.inl (by simp [he])
        · rcases ih e he with h1 | h1
          · exact Or.inl (List.mem_cons_of_mem _ h1)
          · exact Or.inr h1

/-- Joint characterization of downloadFromS3's effect on the local folder and
    localState: the record is set only in the branch where the file was also
    written. -/
theorem download_joint_cases (env : Env) (w : World) (k : String) :
    ((downloadFromS3 env w k).localState = w.localState ∧
      ((downloadFromS3 env w k).localDisk = w.localDisk ∨
        ∃ c, (downloadFromS3 env w k).localDisk = mset w.localDisk k c)) ∨
    (∃ c, mget w.s3Objects k = some c ∧
      (downloadFromS3 env w k).localState = mset w.localState k ⟨k, c, env.now⟩ ∧
      (downloadFromS3 env w k).localDisk = mset w.localDisk k c) := by
  cases h : mget w.s3Objects k with
  | none =>
      exact Or.inl ⟨by simp [downloadFromS3, h], Or.inl (by simp [downloadFromS3, h])⟩
  | some c =>
      by_cases hg : env.getOk k
      · by_cases hm : env.md5DownloadOk k
        · exact Or.inr ⟨c, rfl, by simp [downloadFromS3, h, hg, hm],
            by simp [downloadFromS3, h, hg, hm]⟩
        · exact Or.inl ⟨by simp [downloadFromS3, h, hg, hm],
            Or.inr ⟨c, by simp [downloadFromS3, h, hg, hm]⟩⟩
      · exact Or.inl ⟨by simp [downloadFromS3, h, hg],
          Or.inl (by simp [downloadFromS3, h, hg])⟩

/-- During the download phase, every localState entry keeps a backing file on
    the local disk (downloads write the file before recording it). -/
theorem initialDownloadPhase_disk_covers (env : Env) :
    ∀ (l : List (String × FileState)) (w : World),
      (∀ e ∈ w.localState, (mget w.localDisk e.1).isSome) →
      ∀ e ∈ (initialDownloadPhase env l w).localState,
        (mget (initialDownloadPhase env l w).localDisk e.1).isSome := by
  intro l
  induction l with
  | nil => intro w h; exact h
  | cons en rest ih =>
      intro w h
      obtain ⟨key, sf⟩ := en
      unfold initialDownloadPhase
      apply ih
      by_cases hc : needsSync (mget w.localState key) sf
      · by_cases hd : env.isDryRun
        · simp only [hc, if_true, hd, if_true]
          exact h
        · simp only [hc, if_true, hd, Bool.false_eq_true, if_false]
          intro e he
          rcases download_joint_cases env w key with ⟨hls, hld⟩ | ⟨c, hobj, hls, hld⟩
          · rw [hls] at he
            rcases hld with hld | ⟨c, hld⟩
            · rw [hld]
              exact h e he
            · rw [hld]
              exact mget_isSome_mset _ _ _ _ (h e he)
          · rw [hls] at he
            rw [hld]
            rcases mem_mset w.localState key ⟨key, c, env.now⟩ e he with h1 | ⟨h1, _⟩
            · exact mget_isSome_mset _ _ _ _ (h e h1)
            · rw [h1]
              simp [mget_mset_self]
      · simp only [Bool.not_eq_true] at hc
        simp only [hc, Bool.false_eq_true, if_false]
        exact h

/-- If fs.readFileSync succeeds and the file exists for every localState
    entry of the snapshot, the upload phase never throws: the pass completes
    regardless of put, fingerprint or any other failures. -/
theorem initialUploadPhase_ok (env : Env) :
    ∀ (l : List (String × FileState)) (w : World),
      (∀ e ∈ l, env.readOk e.1 = true ∧ (mget w.localDisk e.1).isSome) →
      ∃ r, initialUploadPhase env l w = Except.ok r := by
  intro l
  induction l with
  | nil => intro w _; exact ⟨w, rfl⟩
  | cons en rest ih =>
      intro w hall
      obtain ⟨key, lf⟩ := en
      have hhead := hall (key, lf) (by simp)
      have hrest : ∀ e ∈ rest, env.readOk e.1 = true ∧ (mget w.localDisk e.1).isSome :=
        fun e he => hall e (List.mem_cons_of_mem _ he)
      unfold initialUploadPhase
      by_cases hc : needsSync (mget w.s3State key) lf
      · by_cases hd : env.isDryRun
        · simp only [hc, if_true, hd]
          exact ih w hrest
        · simp only [hc, if_true, hd, Bool.false_eq_true, if_false]
          have hok := upload_ok_of env w key hhead.1 hhead.2
          cases hu : uploadToS3 env w key with
          | ok w2 =>
              have hdisk := upload_outcome_localDisk env w key
              rw [hu] at hdisk
              simp [outcome] at hdisk
              apply ih w2
              intro e he
              rw [hdisk]
              exact hrest e he
          | error w2 =>
              rw [hu] at hok
              exact absurd hok (by simp)
      · simp only [Bool.not_eq_true] at hc
        simp only [hc, Bool.false_eq_true, if_false]
        exact ih w hrest

/-- With dry-run off and readable files, the upload phase executes an upload
    for every snapshot entry whose key has no remote record. -/
theorem initialUploadPhase_uploads_missing (env : Env) (p : String)
    (hdry : env.isDryRun = false) :
    ∀ (l : List (String × FileState)) (w : World),
      keysNodup l →
      (∀ e ∈ l, env.readOk e.1 = true ∧ (mget w.localDisk e.1).isSome) →
      (∀ f : FileState, (p, f) ∈ l → mget w.s3State p = none →
        Op.upload p ∈ (outcome (initialUploadPhase env l w)).ops) := by
  intro l
  induction l with
  | nil =>
      intro w _ _ f hf
      simp at hf
  | cons en rest ih =>
      intro w hnd hall f hf hs
      obtain ⟨key, lf⟩ := en
      have hnd' := hnd
      simp [keysNodup, mapKeys] at hnd'
      have hndr : keysNodup rest := by
        simpa [keysNodup, mapKeys] using hnd'.2
      have hhead := hall (key, lf) (by simp)
      have hrest : ∀ e ∈ rest, env.readOk e.1 = true ∧ (mget w.localDisk e.1).isSome :=
        fun e he => hall e (List.mem_cons_of_mem _ he)
      by_cases hkp : key = p
      · subst hkp
        have hns : needsSync (mget w.s3State key) lf = true := by
          rw [hs]
          rfl
        unfold initialUploadPhase
        simp only [hns, if_true, hdry, Bool.false_eq_true, if_false]
        have hok := upload_ok_of env w key hhead.1 hhead.2
        cases hu : uploadToS3 env w key with
        | ok w2 =>
            have hops := upload_outcome_ops env w key
            rw [hu] at hops
            simp [outcome] at hops
            apply initialUploadPhase_ops_mono
            rw [hops]
            simp
        | error w2 =>
            rw [hu] at hok
            exact absurd hok (by simp)
      · have hpk : p ≠ key := fun he => hkp he.symm
        have hfr : (p, f) ∈ rest := by
          rcases List.mem_cons.mp hf with hh | hr
          · obtain ⟨h1, h2⟩ := Prod.mk.injEq .. ▸ hh
            exact absurd h1.symm hkp
          · exact hr
        unfold initialUploadPhase
        by_cases hc : needsSync (mget w.s3State key) lf
        · simp only [hc, if_true, hdry, Bool.false_eq_true, if_false]
          have hok := upload_ok_of env w key hhead.1 hhead.2
          cases hu : uploadToS3 env w key with
          | ok w2 =>
              have hdisk := upload_outcome_localDisk env w key
              rw [hu] at hdisk
              simp [outcome] at hdisk
              have hcases := upload_s3State_cases env w key
              rw [hu] at hcases
              simp [outcome] at hcases
              have hs2 : mget w2.s3State p = none := by
                rcases hcases with hcs | ⟨c, _, hcs⟩
                · rw [hcs]
                  exact hs
                · rw [hcs, mget_mset_ne _ _ _ _ hpk]
                  exact hs
              apply ih w2 hndr _ f hfr hs2
              intro e he
              rw [hdisk]
              exact hrest e he
          | error w2 =>
              rw [hu] at hok
              exact absurd hok (by simp)
        · simp only [Bool.not_eq_true] at hc
          simp only [hc, Bool.false_eq_true, if_false]
          exact ih w hndr hrest f hfr hs

/-- C3 (amended): failures of the remote send, of fingerprint computation
    and of local filesystem work inside download/delete are all caught at the
    operation boundary, and as long as the initial fs.readFileSync of every
    recorded local file succeeds, the full pass completes (never aborts) and
    every local-only path still gets its upload executed — whatever other
    operations fail. The exception is the local read itself: it sits outside
    uploadToS3's try/catch and aborts the pass (see the counterexample). -/
theorem read_ok_pass_completes (env : Env) (w : World)
    (hdry : env.isDryRun = false)
    (hreads : ∀ k, env.readOk k = true)
    (hfiles : ∀ e ∈ w.localState, (mget w.localDisk e.1).isSome)
    (hndl : keysNodup w.localState) :
    ∃ r, performInitialSync env w = Except.ok r ∧
      ∀ k, k ∈ mapKeys w.localState → mget w.s3State k = none →
        Op.upload k ∈ r.ops := by
  have hfiles1 : ∀ e ∈ (initialDownloadPhase env w.s3State w).localState,
      (mget (initialDownloadPhase env w.s3State w).localDisk e.1).isSome :=
    initialDownloadPhase_disk_covers env w.s3State w hfiles
  have hall1 : ∀ e ∈ (initialDownloadPhase env w.s3State w).localState,
      env.readOk e.1 = true ∧
      (mget (initialDownloadPhase env w.s3State w).localDisk e.1).isSome :=
    fun e he => ⟨hreads e.1, hfiles1 e he⟩
  obtain ⟨r2, hr2⟩ := initialUploadPhase_ok env
    (initialDownloadPhase env w.s3State w).localState
    (initialDownloadPhase env w.s3State w) hall1
  refine ⟨localDeletePhase env
      (remoteDeletePhase env r2.s3State r2).localState
      (remoteDeletePhase env r2.s3State r2),
    performInitialSync_ok_eq env w hr2, ?_⟩
  intro k hk hs
  have hknotin : k ∉ mapKeys w.s3State := (mget_eq_none_iff _ _).mp hs
  have hstable : mget (initialDownloadPhase env w.s3State w).localState k =
      mget w.localState k :=
    initialDownloadPhase_localState_stable env k w.s3State w hknotin
  obtain ⟨e, he, hek⟩ := List.mem_map.mp hk
  have hlw : mget w.localState k = some e.2 := by
    have := mget_of_mem_nodup hndl (show (e.1, e.2) ∈ w.localState by simpa using he)
    rw [hek] at this
    exact this
  have hmem1 : (k, e.2) ∈ (initialDownloadPhase env w.s3State w).localState := by
    apply mem_of_mget
    rw [hstable]
    exact hlw
  have hs1 : mget (initialDownloadPhase env w.s3State w).s3State k = none := by
    rw [initialDownloadPhase_s3State]
    exact hs
  have hnd1n : keysNodup (initialDownloadPhase env w.s3State w).localState :=
    initialDownloadPhase_keysNodup env w.s3State w hndl
  have hup := initialUploadPhase_uploads_missing env k hdry
    (initialDownloadPhase env w.s3State w).localState
    (initialDownloadPhase env w.s3State w) hnd1n hall1 e.2 hmem1 hs1
  rw [hr2] at hup
  simp [outcome] at hup
  apply localDeletePhase_ops_mono
  apply remoteDeletePhase_ops_mono
  exact hup

theorem read_ok_pass_completes_witness :
    ∃ r, performInitialSync envPutFail wTwoLocal = Except.ok r ∧
      ∀ k, k ∈ mapKeys wTwoLocal.localState → mget wTwoLocal.s3State k = none →
        Op.upload k ∈ r.ops :=
  read_ok_pass_completes envPutFail wTwoLocal rfl (fun _ => rfl)
    (by decide) (by decide)

/-- C3 (counterexample): a failing fs.readFileSync in uploadToS3 is NOT
    caught at the operation boundary: on a world with two local-only files a
    and b where reading a fails, performInitialSync throws after logging only
    the upload of a — the pass aborts and b, although divergent, is never
    processed. -/
theorem read_failure_aborts_pass :
    performInitialSync envReadFailA wTwoLocal =
      Except.error { wTwoLocal with ops := [Op.upload "a"] } ∧
    mget wTwoLocal.s3State "b" = none ∧
    Op.upload "b" ∉ (outcome (performInitialSync envReadFailA wTwoLocal)).ops := by
  decide

theorem initialDownloadPhase_localState_isSome_mono (env : Env) (k : String) :
    ∀ (l : List (String × FileState)) (w : World),
      (mget w.localState k).isSome →
      (mget (initialDownloadPhase env l w).localState k).isSome := by
  intro l
  induction l with
  | nil => intro w h; exact h
  | cons e rest ih =>
      intro w h
      obtain ⟨key, sf⟩ := e
      unfold initialDownloadPhase
      apply ih
      by_cases hc : needsSync (mget w.localState key) sf <;>
        by_cases hd : env.isDryRun <;>
        simp [hc, hd, h, download_localState_isSome_mono env w key k h]

/-- If dry-run is off and, for every snapshot entry, GetObject, the write and
    the hash succeed, then after the download phase every snapshot key has a
    localState record (it was either already there or has just been
    downloaded). -/
theorem initialDownloadPhase_covers (env : Env)
    (hdry : env.isDryRun = false) :
    ∀ (l : List (String × FileState)) (w : World),
      (∀ e ∈ l, env.getOk e.1 = true ∧ env.md5DownloadOk e.1 = true ∧
        (mget w.s3Objects e.1).isSome) →
      ∀ e ∈ l, (mget (initialDownloadPhase env l w).localState e.1).isSome := by
  intro l
  induction l with
  | nil =>
      intro w _ e he
      simp at he
  | cons en rest ih =>
      intro w hsucc e he
      obtain ⟨key, sf⟩ := en
      have hhead := hsucc (key, sf) (by simp)
      unfold initialDownloadPhase
      by_cases hc : needsSync (mget w.localState key) sf
      · simp only [hc, if_true, hdry, Bool.false_eq_true, if_false]
        obtain ⟨c, hc2⟩ := Option.isSome_iff_exists.mp hhead.2.2
        have hdleq := download_success env w key c hc2 hhead.1 hhead.2.1
        have hrest : ∀ e2 ∈ rest, env.getOk e2.1 = true ∧
            env.md5DownloadOk e2.1 = true ∧
            (mget (downloadFromS3 env w key).s3Objects e2.1).isSome := by
          intro e2 he2
          rw [download_s3Objects]
          exact hsucc e2 (List.mem_cons_of_mem _ he2)
        rcases List.mem_cons.mp he with hh | hr
        · rw [hh]
          apply initialDownloadPhase_localState_isSome_mono
          rw [hdleq]
          simp [mget_mset_self]
        · exact ih (downloadFromS3 env w key) hrest e hr
      · simp only [Bool.not_eq_true] at hc
        simp only [hc, Bool.false_eq_true, if_false]
        have hrest : ∀ e2 ∈ rest, env.getOk e2.1 = true ∧
            env.md5DownloadOk e2.1 = true ∧ (mget w.s3Objects e2.1).isSome :=
          fun e2 he2 => hsucc e2 (List.mem_cons_of_mem _ he2)
        rcases List.mem_cons.mp he with hh | hr
        · rw [hh]
          apply initialDownloadPhase_localState_isSome_mono
          unfold needsSync at hc
          cases hL : mget w.localState key with
          | none =>
              rw [hL] at hc
              simp at hc
          | some lf => simp [hL]
        · exact ih w hrest e hr

/-- Every key recorded remotely after the upload phase was recorded remotely
    before it or belongs to the upload snapshot. -/
theorem initialUploadPhase_s3State_keys (env : Env) (k : String) :
    ∀ (l : List (String × FileState)) (w : World),
      (mget (outcome (initialUploadPhase env l w)).s3State k).isSome →
      (mget w.s3State k).isSome ∨ ∃ e ∈ l, e.1 = k := by
  intro l
  induction l with
  | nil => intro w h; exact Or.inl h
  | cons en rest ih =>
      intro w h
      obtain ⟨key, lf⟩ := en
      unfold initialUploadPhase at h
      by_cases hc : needsSync (mget w.s3State key) lf
      · by_cases hd : env.isDryRun
        · simp only [hc, if_true, hd] at h
          rcases ih w h with h1 | ⟨e, he, hek⟩
          · exact Or.inl h1
          · exact Or.inr ⟨e, List.mem_cons_of_mem _ he, hek⟩
        · simp only [hc, if_true, hd, Bool.false_eq_true, if_false] at h
          cases hu : uploadToS3 env w key with
          | ok w2 =>
              rw [hu] at h
              have hcases := upload_s3State_cases env w key
              rw [hu] at hcases
              simp [outcome] at hcases
              rcases ih w2 h with h1 | ⟨e, he, hek⟩
              · rcases hcases with hcs | ⟨c, _, hcs⟩
                · rw [hcs] at h1
                  exact Or.inl h1
                · rw [hcs] at h1
                  by_cases hkk : k = key
                  · exact Or.inr ⟨(key, lf), by simp, hkk.symm⟩
                  · rw [mget_mset_ne _ _ _ _ hkk] at h1
                    exact Or.inl h1
              · exact Or.inr ⟨e, List.mem_cons_of_mem _ he, hek⟩
          | error w2 =>
              rw [hu] at h
              simp [outcome] at h
              have hcases := upload_s3State_cases env w key
              rw [hu] at hcases
              simp [outcome] at hcases
              rcases hcases with hcs | ⟨c, _, hcs⟩
              · rw [hcs] at h
                exact Or.inl h
              · rw [hcs] at h
                by_cases hkk : k = key
                · exact Or.inr ⟨(key, lf), by simp, hkk.symm⟩
                · rw [mget_mset_ne _ _ _ _ hkk] at h
                  exact Or.inl h
      · simp only [Bool.not_eq_true] at hc
        simp only [hc, Bool.false_eq_true, if_false] at h
        rcases ih w h with h1 | ⟨e, he, hek⟩
        · exact Or.inl h1
        · exact Or.inr ⟨e, List.mem_cons_of_mem _ he, hek⟩

/-- If every snapshot key still has a localState record, the remote delete
    phase does nothing at all. -/
theorem remoteDeletePhase_id (env : Env) :
    ∀ (l : List (String × FileState)) (w : World),
      (∀ e ∈ l, (mget w.localState e.1).isSome) →
      remoteDeletePhase env l w = w := by
  intro l
  induction l with
  | nil => intro w _; rfl
  | cons en rest ih =>
      intro w hall
      obtain ⟨key, sf⟩ := en
      have hhead := hall (key, sf) (by simp)
      unfold remoteDeletePhase
      simp only [hhead, if_true]
      exact ih w (fun e he => hall e (List.mem_cons_of_mem _ he))

/-- C9: with dry-run off, if GetObject, the local write and the hash succeed
    for every key recorded in s3State (i.e. every download of the first phase
    fully succeeds), then performInitialSync executes zero deleteRemote
    operations: every remote key is present in localState by the time the
    delete-remote loop runs. -/
theorem downloads_ok_no_remote_deletes (env : Env) (w : World)
    (hdry : env.isDryRun = false)
    (hops : w.ops = [])
    (hsucc : ∀ e ∈ w.s3State, env.getOk e.1 = true ∧
      env.md5DownloadOk e.1 = true ∧ (mget w.s3Objects e.1).isSome) :
    ∀ k, Op.deleteRemote k ∉ (outcome (performInitialSync env w)).ops := by
  intro k hin
  cases hu : initialUploadPhase env
      (initialDownloadPhase env w.s3State w).localState
      (initialDownloadPhase env w.s3State w) with
  | error w2 =>
      rw [performInitialSync_error_eq env w hu] at hin
      simp [outcome] at hin
      have hin2 : Op.deleteRemote k ∈ (outcome (initialUploadPhase env
          (initialDownloadPhase env w.s3State w).localState
          (initialDownloadPhase env w.s3State w))).ops := by
        rw [hu]
        simpa [outcome] using hin
      rcases initialUploadPhase_ops_shape env _ _ hin2 with h1 | ⟨k2, hk2⟩
      · rcases initialDownloadPhase_ops_shape env _ _ h1 with h2 | ⟨k2, hk2⟩
        · rw [hops] at h2
          simp at h2
        · exact Op.noConfusion hk2
      · exact Op.noConfusion hk2
  | ok w2 =>
      have hloc : w2.localState = (initialDownloadPhase env w.s3State w).localState := by
        have h3 := initialUploadPhase_localState env
          (initialDownloadPhase env w.s3State w).localState
          (initialDownloadPhase env w.s3State w)
        rw [hu] at h3
        simpa [outcome] using h3
      have hid : remoteDeletePhase env w2.s3State w2 = w2 := by
        apply remoteDeletePhase_id
        intro e he
        have hsome : (mget w2.s3State e.1).isSome := mget_isSome_of_mem he
        have hsome2 : (mget (outcome (initialUploadPhase env
            (initialDownloadPhase env w.s3State w).localState
            (initialDownloadPhase env w.s3State w))).s3State e.1).isSome := by
          rw [hu]
          simpa [outcome] using hsome
        rcases initialUploadPhase_s3State_keys env e.1 _ _ hsome2 with h1 | ⟨e2, he2, hek⟩
        · rw [initialDownloadPhase_s3State] at h1
          obtain ⟨f, hf⟩ := Option.isSome_iff_exists.mp h1
          have hcov := initialDownloadPhase_covers env hdry w.s3State w hsucc
            (e.1, f) (mem_of_mget hf)
          rw [hloc]
          exact hcov
        · rw [hloc, ← hek]
          exact mget_isSome_of_mem he2
      rw [performInitialSync_ok_eq env w hu] at hin
      simp [outcome] at hin
      rw [hid] at hin
      rcases localDeletePhase_ops_shape env _ _ hin with h1 | ⟨k2, hk2⟩
      · have hin2 : Op.deleteRemote k ∈ (outcome (initialUploadPhase env
            (initialDownloadPhase env w.s3State w).localState
            (initialDownloadPhase env w.s3State w))).ops := by
          rw [hu]
          simpa [outcome] using h1
        rcases initialUploadPhase_ops_shape env _ _ hin2 with h2 | ⟨k2, hk2⟩
        · rcases initialDownloadPhase_ops_shape env _ _ h2 with h3 | ⟨k2, hk2⟩
          · rw [hops] at h3
            simp at h3
          · exact Op.noConfusion hk2
        · exact Op.noConfusion hk2
      · exact Op.noConfusion hk2

theorem downloads_ok_no_remote_deletes_witness :
    Op.deleteRemote "b" ∉ (outcome (performInitialSync envAllOk wOneEach)).ops :=
  downloads_ok_no_remote_deletes envAllOk wOneEach rfl rfl (by decide) "b"

/-- Master lemma for the download phase under global success: localState
    accuracy against the local folder is preserved, and afterwards every
    snapshot key has a localState record whose md5 equals the remote record's
    md5 (it was already equal, or the download just made it so). -/
theorem initialDownloadPhase_master (env : Env) (hdry : env.isDryRun = false)
    (hget : ∀ k, env.getOk k = true) (hmd : ∀ k, env.md5DownloadOk k = true) :
    ∀ (l : List (String × FileState)) (w : World),
      keysNodup l → keysNodup w.localState →
      (∀ e ∈ l, mget w.s3Objects e.1 = some e.2.md5) →
      lsAccurate w →
      lsAccurate (initialDownloadPhase env l w) ∧
      (∀ e ∈ l, ∃ g, mget (initialDownloadPhase env l w).localState e.1 = some g ∧
        g.md5 = e.2.md5) := by
  intro l
  induction l with
  | nil =>
      intro w _ _ _ hacc
      exact ⟨hacc, by simp⟩
  | cons en rest ih =>
      intro w hndl hndw hobj hacc
      obtain ⟨key, sf⟩ := en
      have hndl' := hndl
      simp [keysNodup, mapKeys] at hndl'
      have hndr : keysNodup rest := by
        simpa [keysNodup, mapKeys] using hndl'.2
      have hkeyrest : key ∉ mapKeys rest := by
        simp [mapKeys]
        intro b hb
        exact hndl'.1 b hb
      have hheadobj : mget w.s3Objects key = some sf.md5 := hobj (key, sf) (by simp)
      have hrestobj : ∀ e ∈ rest, mget w.s3Objects e.1 = some e.2.md5 :=
        fun e he => hobj e (List.mem_cons_of_mem _ he)
      unfold initialDownloadPhase
      by_cases hc : needsSync (mget w.localState key) sf
      · simp only [hc, if_true, hdry, Bool.false_eq_true, if_false]
        rw [download_success env w key sf.md5 hheadobj (hget key) (hmd key)]
        have hndw2 : keysNodup (mset w.localState key ⟨key, sf.md5, env.now⟩) :=
          keysNodup_mset key _ hndw
        have hacc2 : lsAccurate { w with
            ops := w.ops ++ [Op.download key],
            localDisk := mset w.localDisk key sf.md5,
            localState := mset w.localState key ⟨key, sf.md5, env.now⟩ } := by
          intro e he
          obtain ⟨k0, f0⟩ := e
          simp only at he ⊢
          by_cases hek : k0 = key
          · subst hek
            have hme := mget_of_mem_nodup hndw2 he
            rw [mget_mset_self] at hme
            have hf0 : f0 = FileState.mk k0 sf.md5 env.now :=
              (Option.some.inj hme).symm
            rw [mget_mset_self, hf0]
          · rcases mem_mset w.localState key ⟨key, sf.md5, env.now⟩ (k0, f0) he
                with h1 | ⟨h1, _⟩
            · rw [mget_mset_ne _ _ _ _ hek]
              exact hacc (k0, f0) h1
            · exact absurd h1 hek
        obtain ⟨hacc3, hcov3⟩ := ih { w with
            ops := w.ops ++ [Op.download key],
            localDisk := mset w.localDisk key sf.md5,
            localState := mset w.localState key ⟨key, sf.md5, env.now⟩ }
          hndr hndw2 hrestobj hacc2
        refine ⟨hacc3, ?_⟩
        intro e he
        obtain ⟨k0, f0⟩ := e
        rcases List.mem_cons.mp he with hh | hr
        · obtain ⟨hk, hv⟩ := Prod.mk.injEq .. ▸ hh
          refine ⟨⟨key, sf.md5, env.now⟩, ?_, by rw [hv]⟩
          rw [hk]
          rw [initialDownloadPhase_localState_stable env key rest _ hkeyrest]
          simp [mget_mset_self]
        · exact hcov3 (k0, f0) hr
      · simp only [Bool.not_eq_true] at hc
        simp only [hc, Bool.false_eq_true, if_false]
        obtain ⟨hacc3, hcov3⟩ := ih w hndr hndw hrestobj hacc
        refine ⟨hacc3, ?_⟩
        intro e he
        obtain ⟨k0, f0⟩ := e
        rcases List.mem_cons.mp he with hh | hr
        · obtain ⟨hk, hv⟩ := Prod.mk.injEq .. ▸ hh
          cases hL : mget w.localState key with
          | none =>
              rw [hL] at hc
              exact absurd hc (by simp [needsSync])
          | some lf =>
              have hmd5 : lf.md5 = sf.md5 := by
                rw [hL] at hc
                simpa [needsSync] using hc
              refine ⟨lf, ?_, by rw [hv, ← hmd5]⟩
              rw [hk]
              rw [initialDownloadPhase_localState_stable env key rest w hkeyrest]
              exact hL
        · exact hcov3 (k0, f0) hr

/-- Master lemma for the upload phase under global success: the phase never
    throws, leaves localState and the local folder untouched, changes s3State
    only at snapshot keys, and afterwards every snapshot key has an s3State
    record whose md5 equals the local record's md5. -/
theorem initialUploadPhase_master (env : Env) (hdry : env.isDryRun = false)
    (hread : ∀ k, env.readOk k = true) (hput : ∀ k, env.putOk k = true)
    (hmdu : ∀ k, env.md5UploadOk k = true) :
    ∀ (l : List (String × FileState)) (w : World),
      keysNodup l →
      (∀ e ∈ l, mget w.localDisk e.1 = some e.2.md5) →
      ∃ r, initialUploadPhase env l w = Except.ok r ∧
        r.localState = w.localState ∧
        r.localDisk = w.localDisk ∧
        (∀ k, k ∉ mapKeys l → mget r.s3State k = mget w.s3State k) ∧
        (∀ e ∈ l, ∃ g, mget r.s3State e.1 = some g ∧ g.md5 = e.2.md5) ∧
        (keysNodup w.s3State → keysNodup r.s3State) := by
  intro l
  induction l with
  | nil =>
      intro w _ _
      exact ⟨w, rfl, rfl, rfl, fun k _ => rfl, by simp, fun h => h⟩
  | cons en rest ih =>
      intro w hndl hdisk
      obtain ⟨key, lf⟩ := en
      have hndl' := hndl
      simp [keysNodup, mapKeys] at hndl'
      have hndr : keysNodup rest := by
        simpa [keysNodup, mapKeys] using hndl'.2
      have hkeyrest : key ∉ mapKeys rest := by
        simp [mapKeys]
        intro b hb
        exact hndl'.1 b hb
      have hhead : mget w.localDisk key = some lf.md5 := hdisk (key, lf) (by simp)
      have hdiskr : ∀ e ∈ rest, mget w.localDisk e.1 = some e.2.md5 :=
        fun e he => hdisk e (List.mem_cons_of_mem _ he)
      unfold initialUploadPhase
      by_cases hc : needsSync (mget w.s3State key) lf
      · simp only [hc, if_true, hdry, Bool.false_eq_true, if_false]
        rw [upload_success env w key lf.md5 hhead (hread key) (hput key) (hmdu key)]
        obtain ⟨r, hr, hls, hld, hunt, hcov, hnd⟩ := ih { w with
            ops := w.ops ++ [Op.upload key],
            s3Objects := mset w.s3Objects key lf.md5,
            s3State := mset w.s3State key ⟨key, lf.md5, env.now⟩ } hndr hdiskr
        refine ⟨r, hr, hls, hld, ?_, ?_, ?_⟩
        · intro k hk
          simp [mapKeys] at hk
          rw [hunt k (by simpa [mapKeys] using hk.2)]
          exact mget_mset_ne _ _ _ _ hk.1
        · intro e he
          obtain ⟨k0, f0⟩ := e
          rcases List.mem_cons.mp he with hh | hr2
          · obtain ⟨hk, hv⟩ := Prod.mk.injEq .. ▸ hh
            refine ⟨⟨key, lf.md5, env.now⟩, ?_, by rw [hv]⟩
            rw [hk]
            rw [hunt key hkeyrest]
            simp [mget_mset_self]
          · exact hcov (k0, f0) hr2
        · intro hndS
          exact hnd (keysNodup_mset key _ hndS)
      · simp only [Bool.not_eq_true] at hc
        simp only [hc, Bool.false_eq_true, if_false]
        obtain ⟨r, hr, hls, hld, hunt, hcov, hnd⟩ := ih w hndr hdiskr
        refine ⟨r, hr, hls, hld, ?_, ?_, hnd⟩
        · intro k hk
          simp [mapKeys] at hk
          exact hunt k (by simpa [mapKeys] using hk.2)
        · intro e he
          obtain ⟨k0, f0⟩ := e
          rcases List.mem_cons.mp he with hh | hr2
          · obtain ⟨hk, hv⟩ := Prod.mk.injEq .. ▸ hh
            cases hL : mget w.s3State key with
            | none =>
                rw [hL] at hc
                exact absurd hc (by simp [needsSync])
            | some b =>
                have hmd5 : b.md5 = lf.md5 := by
                  rw [hL] at hc
                  simpa [needsSync] using hc
                refine ⟨b, ?_, by rw [hv, ← hmd5]⟩
                rw [hk]
                rw [hunt key hkeyrest]
                exact hL
          · exact hcov (k0, f0) hr2

/-- If every snapshot key still has an s3State record, the local delete phase
    does nothing at all. -/
theorem localDeletePhase_id (env : Env) :
    ∀ (l : List (String × FileState)) (w : World),
      (∀ e ∈ l, (mget w.s3State e.1).isSome) →
      localDeletePhase env l w = w := by
  intro l
  induction l with
  | nil => intro w _; rfl
  | cons en rest ih =>
      intro w hall
      obtain ⟨key, lf⟩ := en
      have hhead := hall (key, lf) (by simp)
      unfold localDeletePhase
      simp only [hhead, if_true]
      exact ih w (fun e he => hall e (List.mem_cons_of_mem _ he))

/-- If no snapshot entry triggers the download condition, the download phase
    does nothing at all. -/
theorem initialDownloadPhase_id (env : Env) :
    ∀ (l : List (String × FileState)) (w : World),
      (∀ e ∈ l, needsSync (mget w.localState e.1) e.2 = false) →
      initialDownloadPhase env l w = w := by
  intro l
  induction l with
  | nil => intro w _; rfl
  | cons en rest ih =>
      intro w hall
      obtain ⟨key, sf⟩ := en
      have hhead := hall (key, sf) (by simp)
      unfold initialDownloadPhase
      simp only [hhead, Bool.false_eq_true, if_false]
      exact ih w (fun e he => hall e (List.mem_cons_of_mem _ he))

/-- If no snapshot entry triggers the upload condition, the upload phase does
    nothing at all. -/
theorem initialUploadPhase_id (env : Env) :
    ∀ (l : List (String × FileState)) (w : World),
      (∀ e ∈ l, needsSync (mget w.s3State e.1) e.2 = false) →
      initialUploadPhase env l w = Except.ok w := by
  intro l
  induction l with
  | nil => intro w _; rfl
  | cons en rest ih =>
      intro w hall
      obtain ⟨key, lf⟩ := en
      have hhead := hall (key, lf) (by simp)
      unfold initialUploadPhase
      simp only [hhead, Bool.false_eq_true, if_false]
      exact ih w (fun e he => hall e (List.mem_cons_of_mem _ he))

/-- Convergence of one full reconciliation pass: with accurate StateStores
    and every operation succeeding, performInitialSync completes and leaves
    the two StateStores recording exactly the same keys with equal
    fingerprints. -/
theorem initialSync_converges (env : Env) (w : World)
    (hok : AllOk env) (hla : lsAccurate w) (hra : rsAccurate w)
    (hndl : keysNodup w.localState) (hnds : keysNodup w.s3State) :
    ∃ r, performInitialSync env w = Except.ok r ∧ Synced r ∧
      keysNodup r.localState ∧ keysNodup r.s3State := by
  obtain ⟨hdry, hfun⟩ := hok
  have hread : ∀ k, env.readOk k = true := fun k => (hfun k).1
  have hput : ∀ k, env.putOk k = true := fun k => (hfun k).2.1
  have hget : ∀ k, env.getOk k = true := fun k => (hfun k).2.2.1
  have hmdu : ∀ k, env.md5UploadOk k = true := fun k => (hfun k).2.2.2.2.2.1
  have hmdd : ∀ k, env.md5DownloadOk k = true := fun k => (hfun k).2.2.2.2.2.2
  obtain ⟨hacc1, hcov1⟩ := initialDownloadPhase_master env hdry hget hmdd
      w.s3State w hnds hndl hra hla
  have hnd1 : keysNodup (initialDownloadPhase env w.s3State w).localState :=
    initialDownloadPhase_keysNodup env w.s3State w hndl
  have hs31 : (initialDownloadPhase env w.s3State w).s3State = w.s3State :=
    initialDownloadPhase_s3State env w.s3State w
  obtain ⟨r, hr, hls, hld, hunt, hcov2, hndf⟩ := initialUploadPhase_master env hdry
      hread hput hmdu (initialDownloadPhase env w.s3State w).localState
      (initialDownloadPhase env w.s3State w) hnd1 hacc1
  have hnds2 : keysNodup r.s3State := by
    apply hndf
    rw [hs31]
    exact hnds
  have hid3 : remoteDeletePhase env r.s3State r = r := by
    apply remoteDeletePhase_id
    intro e he
    obtain ⟨k0, f0⟩ := e
    simp only
    by_cases hk : k0 ∈ mapKeys (initialDownloadPhase env w.s3State w).localState
    · rw [hls]
      exact (mget_isSome_iff _ _).mpr hk
    · have h1 := hunt k0 hk
      have h2 : (mget r.s3State k0).isSome := mget_isSome_of_mem he
      rw [h1, hs31] at h2
      obtain ⟨f, hf⟩ := Option.isSome_iff_exists.mp h2
      obtain ⟨g, hg, _⟩ := hcov1 (k0, f) (mem_of_mget hf)
      rw [hls]
      simp [hg]
  have hid4 : localDeletePhase env r.localState r = r := by
    apply localDeletePhase_id
    intro e he
    obtain ⟨k0, f0⟩ := e
    simp only
    have hmem1 : (k0, f0) ∈ (initialDownloadPhase env w.s3State w).localState := by
      rw [← hls]
      exact he
    obtain ⟨g, hg, _⟩ := hcov2 (k0, f0) hmem1
    simp [hg]
  refine ⟨r, ?_, ?_, ?_, hnds2⟩
  · rw [performInitialSync_ok_eq env w hr, hid3, hid4]
  · intro k
    cases hk1 : mget r.localState k with
    | some a =>
        have hmem : (k, a) ∈ (initialDownloadPhase env w.s3State w).localState := by
          rw [← hls]
          exact mem_of_mget hk1
        obtain ⟨g, hg, hgm⟩ := hcov2 (k, a) hmem
        rw [hg]
        exact hgm.symm
    | none =>
        have hk1w : mget (initialDownloadPhase env w.s3State w).localState k = none := by
          rw [← hls]
          exact hk1
        have hk0 : k ∉ mapKeys (initialDownloadPhase env w.s3State w).localState :=
          (mget_eq_none_iff _ _).mp hk1w
        have h1 := hunt k hk0
        rw [hs31] at h1
        cases hk2 : mget r.s3State k with
        | some b =>
            rw [hk2] at h1
            obtain ⟨g, hg, _⟩ := hcov1 (k, b) (mem_of_mget h1.symm)
            rw [hk1w] at hg
            exact Option.noConfusion hg
        | none => trivial
  · rw [hls]
    exact hnd1

/-- On StateStores that already agree, performInitialSync is the identity:
    every trigger is false, so no operation and no mutation at all. -/
theorem initialSync_of_synced (env : Env) (r : World) (h : Synced r)
    (hnl : keysNodup r.localState) (hns : keysNodup r.s3State) :
    performInitialSync env r = Except.ok r := by
  have h1 : initialDownloadPhase env r.s3State r = r := by
    apply initialDownloadPhase_id
    intro e he
    obtain ⟨k0, f0⟩ := e
    have hmg : mget r.s3State k0 = some f0 := mget_of_mem_nodup hns he
    have hk := h k0
    cases hL : mget r.localState k0 with
    | none =>
        rw [hL, hmg] at hk
        exact False.elim hk
    | some a =>
        rw [hL, hmg] at hk
        have hmd : a.md5 = f0.md5 := hk
        simp [needsSync, hL, hmd]
  have h2 : initialUploadPhase env r.localState r = Except.ok r := by
    apply initialUploadPhase_id
    intro e he
    obtain ⟨k0, f0⟩ := e
    have hmg : mget r.localState k0 = some f0 := mget_of_mem_nodup hnl he
    have hk := h k0
    cases hL : mget r.s3State k0 with
    | none =>
        rw [hmg, hL] at hk
        exact False.elim hk
    | some b =>
        rw [hmg, hL] at hk
        have hmd : f0.md5 = b.md5 := hk
        simp [needsSync, hL, hmd]
  have h3 : remoteDeletePhase env r.s3State r = r := by
    apply remoteDeletePhase_id
    intro e he
    obtain ⟨k0, f0⟩ := e
    have hmg : mget r.s3State k0 = some f0 := mget_of_mem_nodup hns he
    have hk := h k0
    cases hL : mget r.localState k0 with
    | none =>
        rw [hL, hmg] at hk
        exact False.elim hk
    | some a => simp [hL]
  have h4 : localDeletePhase env r.localState r = r := by
    apply localDeletePhase_id
    intro e he
    obtain ⟨k0, f0⟩ := e
    have hmg : mget r.localState k0 = some f0 := mget_of_mem_nodup hnl he
    have hk := h k0
    cases hL : mget r.s3State k0 with
    | none =>
        rw [hmg, hL] at hk
        exact False.elim hk
    | some b => simp [hL]
  rw [performInitialSync_eq, h1, h2]
  simp only [h3, h4]

/-- C4: with accurate StateStores (each record's md5 matches the actual
    content on its side) and every operation of the first run succeeding,
    running the full reconciliation twice in succession with no external
    change in between performs zero operations on the second run: the second
    run returns its input world completely unchanged — in particular the
    operation log receives no upload, download or delete entry. -/
theorem initial_sync_idempotent (env : Env) (w : World)
    (hok : AllOk env) (hla : lsAccurate w) (hra : rsAccurate w)
    (hndl : keysNodup w.localState) (hnds : keysNodup w.s3State) :
    ∃ r, performInitialSync env w = Except.ok r ∧
      performInitialSync env r = Except.ok r := by
  obtain ⟨r, hr, hsync, hnl, hns⟩ := initialSync_converges env w hok hla hra hndl hnds
  exact ⟨r, hr, initialSync_of_synced env r hsync hnl hns⟩

theorem initial_sync_idempotent_witness :
    ∃ r, performInitialSync envAllOk wDisjoint = Except.ok r ∧
      performInitialSync envAllOk r = Except.ok r :=
  initial_sync_idempotent envAllOk wDisjoint
    ⟨rfl, fun _ => ⟨rfl, rfl, rfl, rfl, rfl, rfl, rfl⟩⟩
    (by decide) (by decide) (by decide) (by decide)

/-- C5: starting from accurate StateStores with disjoint key sets, one full
    reconciliation pass in which every operation succeeds makes the two
    StateStores record exactly the same keys, with equal fingerprints on
    every shared key. -/
theorem disjoint_initial_sync_convergence (env : Env) (w : World)
    (hok : AllOk env) (hla : lsAccurate w) (hra : rsAccurate w)
    (hndl : keysNodup w.localState) (hnds : keysNodup w.s3State)
    (hdisj : ∀ e ∈ w.localState, (mget w.s3State e.1).isSome = false) :
    ∃ r, performInitialSync env w = Except.ok r ∧
      (∀ k, (mget r.localState k).isSome ↔ (mget r.s3State k).isSome) ∧
      (∀ k a b, mget r.localState k = some a → mget r.s3State k = some b →
        a.md5 = b.md5) := by
  obtain ⟨r, hr, hsync, _, _⟩ := initialSync_converges env w hok hla hra hndl hnds
  refine ⟨r, hr, ?_, ?_⟩
  · intro k
    have hk := hsync k
    cases h1 : mget r.localState k with
    | none =>
        cases h2 : mget r.s3State k with
        | none => simp
        | some b =>
            rw [h1, h2] at hk
            exact False.elim hk
    | some a =>
        cases h2 : mget r.s3State k with
        | none =>
            rw [h1, h2] at hk
            exact False.elim hk
        | some b => simp
  · intro k a b h1 h2
    have hk := hsync k
    rw [h1, h2] at hk
    exact hk

theorem disjoint_initial_sync_convergence_witness :
    ∃ r, performInitialSync envAllOk wDisjoint = Except.ok r ∧
      (∀ k, (mget r.localState k).isSome ↔ (mget r.s3State k).isSome) ∧
      (∀ k a b, mget r.localState k = some a → mget r.s3State k = some b →
        a.md5 = b.md5) :=
  disjoint_initial_sync_convergence envAllOk wDisjoint
    ⟨rfl, fun _ => ⟨rfl, rfl, rfl, rfl, rfl, rfl, rfl⟩⟩
    (by decide) (by decide) (by decide) (by decide) (by decide)

end S3Sync
